import Mathlib

set_option maxRecDepth 100000

/-!
Verification of the agent pipeline of this repository: the rate limiter
(`Visual/agents/rate_limiter.py`), the CLI retry loop and JSON-response
recovery (`Visual/agents/base_agent.py`), architecture normalization and
layout (`Visual/agents/architect.py`), and build-plan generation plus the
dependency-ordered scheduler (`Visual/agents/general_manager.py`).

Python dictionaries are modelled as structures; a field read through
`dict.get(k)` is modelled as an `Option` field (with `none` standing for an
absent key).  Python floats appearing as wall-clock timestamps are modelled
as rationals; machine-level 32-bit arithmetic (inside MD5) is `Nat` with an
explicit `% 2^32`.
-/

/-! ### MD5

`architect.py` line 190 computes
`hashlib.md5(str(project.summary or project.name).encode()).hexdigest()[:6]`.
The full MD5 algorithm is embedded below so that the id scheme of
`_validate_architecture` can be evaluated on concrete inputs.
-/

/-- UTF-8 encoding of a single character (the `str.encode()` byte values). -/
def encodeUtf8Char (c : Char) : List Nat :=
  let n := c.toNat
  if n < 128 then [n]
  else if n < 2048 then [192 + n / 64, 128 + n % 64]
  else if n < 65536 then [224 + n / 4096, 128 + (n / 64) % 64, 128 + n % 64]
  else [240 + n / 262144, 128 + (n / 4096) % 64, 128 + (n / 64) % 64, 128 + n % 64]

/-- UTF-8 encoding of a string, as a list of byte values. -/
def utf8Bytes (s : String) : List Nat :=
  s.data.foldr (fun c acc => encodeUtf8Char c ++ acc) []

/-- 32-bit mask. -/
def mask32 : Nat := 4294967295

/-- Addition modulo 2^32. -/
def add32 (a b : Nat) : Nat := (a + b) % 4294967296

/-- Bitwise complement on 32 bits. -/
def not32 (a : Nat) : Nat := Nat.xor a mask32

/-- Left rotation of a 32-bit word by `n` places. -/
def rotl32 (x n : Nat) : Nat :=
  Nat.lor ((x <<< n) &&& mask32) (x >>> (32 - n))

/-- The 64 MD5 sine-derived constants. -/
def md5K : List Nat :=
  [0xd76aa478, 0xe8c7b756, 0x242070db, 0xc1bdceee,
   0xf57c0faf, 0x4787c62a, 0xa8304613, 0xfd469501,
   0x698098d8, 0x8b44f7af, 0xffff5bb1, 0x895cd7be,
   0x6b901122, 0xfd987193, 0xa679438e, 0x49b40821,
   0xf61e2562, 0xc040b340, 0x265e5a51, 0xe9b6c7aa,
   0xd62f105d, 0x02441453, 0xd8a1e681, 0xe7d3fbc8,
   0x21e1cde6, 0xc33707d6, 0xf4d50d87, 0x455a14ed,
   0xa9e3e905, 0xfcefa3f8, 0x676f02d9, 0x8d2a4c8a,
   0xfffa3942, 0x8771f681, 0x6d9d6122, 0xfde5380c,
   0xa4beea44, 0x4bdecfa9, 0xf6bb4b60, 0xbebfbc70,
   0x289b7ec6, 0xeaa127fa, 0xd4ef3085, 0x04881d05,
   0xd9d4d039, 0xe6db99e5, 0x1fa27cf8, 0xc4ac5665,
   0xf4292244, 0x432aff97, 0xab9423a7, 0xfc93a039,
   0x655b59c3, 0x8f0ccc92, 0xffeff47d, 0x85845dd1,
   0x6fa87e4f, 0xfe2ce6e0, 0xa3014314, 0x4e0811a1,
   0xf7537e82, 0xbd3af235, 0x2ad7d2bb, 0xeb86d391]

/-- The 64 MD5 per-round shift amounts. -/
def md5S : List Nat :=
  [7, 12, 17, 22, 7, 12, 17, 22, 7, 12, 17, 22, 7, 12, 17, 22,
   5, 9, 14, 20, 5, 9, 14, 20, 5, 9, 14, 20, 5, 9, 14, 20,
   4, 11, 16, 23, 4, 11, 16, 23, 4, 11, 16, 23, 4, 11, 16, 23,
   6, 10, 15, 21, 6, 10, 15, 21, 6, 10, 15, 21, 6, 10, 15, 21]

/-- MD5 padding: append `0x80`, zero bytes to 56 mod 64, then the original
bit length as eight little-endian bytes. -/
def md5Pad (msg : List Nat) : List Nat :=
  let len := msg.length
  let zeros := (64 + 56 - ((len + 1) % 64)) % 64
  let bitLen := (len * 8) % 18446744073709551616
  msg ++ [128] ++ List.replicate zeros 0 ++
    (List.range 8).map (fun i => (bitLen >>> (8 * i)) % 256)

/-- The `g`-th little-endian 32-bit word of a 64-byte chunk. -/
def leWord (chunk : List Nat) (g : Nat) : Nat :=
  chunk.getD (4 * g) 0 + 256 * chunk.getD (4 * g + 1) 0 +
    65536 * chunk.getD (4 * g + 2) 0 + 16777216 * chunk.getD (4 * g + 3) 0

/-- The MD5 nonlinear function for step `i`. -/
def md5F (i b c d : Nat) : Nat :=
  if i < 16 then Nat.lor (Nat.land b c) (Nat.land (not32 b) d)
  else if i < 32 then Nat.lor (Nat.land d b) (Nat.land (not32 d) c)
  else if i < 48 then Nat.xor b (Nat.xor c d)
  else Nat.xor c (Nat.lor b (not32 d))

/-- The MD5 message-word index for step `i`. -/
def md5G (i : Nat) : Nat :=
  if i < 16 then i
  else if i < 32 then (5 * i + 1) % 16
  else if i < 48 then (3 * i + 5) % 16
  else (7 * i) % 16

/-- One of the 64 MD5 steps. -/
def md5Step (chunk : List Nat) (st : Nat × Nat × Nat × Nat) (i : Nat) :
    Nat × Nat × Nat × Nat :=
  match st with
  | (a, b, c, d) =>
    let f := (md5F i b c d + a + md5K.getD i 0 + leWord chunk (md5G i)) % 4294967296
    (d, add32 b (rotl32 f (md5S.getD i 0)), b, c)

/-- Process one 64-byte chunk. -/
def md5Chunk (st : Nat × Nat × Nat × Nat) (chunk : List Nat) :
    Nat × Nat × Nat × Nat :=
  match st with
  | (a0, b0, c0, d0) =>
    match (List.range 64).foldl (md5Step chunk) (a0, b0, c0, d0) with
    | (a, b, c, d) => (add32 a0 a, add32 b0 b, add32 c0 c, add32 d0 d)

/-- Split a padded message into 64-byte chunks (the padded length is always a
multiple of 64). -/
def chunksOf64 (l : List Nat) : List (List Nat) :=
  (List.range ((l.length + 63) / 64)).map (fun i => (l.drop (64 * i)).take 64)

/-- Little-endian byte decomposition of a 32-bit word. -/
def leBytes4 (x : Nat) : List Nat :=
  [x % 256, (x >>> 8) % 256, (x >>> 16) % 256, (x >>> 24) % 256]

/-- The 16-byte MD5 digest of a byte list. -/
def md5Digest (msg : List Nat) : List Nat :=
  match (chunksOf64 (md5Pad msg)).foldl md5Chunk
      (1732584193, 4023233417, 2562383102, 271733878) with
  | (a, b, c, d) => leBytes4 a ++ leBytes4 b ++ leBytes4 c ++ leBytes4 d

/-- Lowercase hexadecimal digit. -/
def hexDigit (n : Nat) : Char :=
  if n < 10 then Char.ofNat (48 + n) else Char.ofNat (87 + n)

/-- Two-digit lowercase hexadecimal form of a byte. -/
def byteHex (b : Nat) : List Char :=
  [hexDigit (b / 16), hexDigit (b % 16)]

/-- `hashlib.md5(s.encode()).hexdigest()`. -/
def md5Hex (s : String) : String :=
  String.mk ((md5Digest (utf8Bytes s)).foldr (fun b acc => byteHex b ++ acc) [])

/-! ### RateLimiter (`Visual/agents/rate_limiter.py`)

Wall-clock timestamps (Python floats from `time.time()`) are modelled as
rationals.  The several `time.time()` reads inside one call are modelled as a
single instant `now`.  The side effect `time.sleep(...)` performed by a call
is modelled explicitly: a function returns, besides its value, the list of
sleep durations it requests, so that "does it sleep?" is a statement about
the returned trace.
-/

/-- `RateLimitConfig` (rate_limiter.py lines 11-17). -/
structure RateLimitConfig where
  requestsPerMinute : Nat := 50
  requestsPerHour : Nat := 1000
  tokensPerMinute : Nat := 100000
  cooldownSeconds : ℚ := 60
deriving DecidableEq

/-- `RateLimiter._cleanup_old_calls` (lines 87-92): drop timestamps whose age
is 60s or more (minute window) resp. 3600s or more (hour window). -/
def cleanupOldCalls (now : ℚ) (minuteCalls hourCalls : List ℚ) :
    List ℚ × List ℚ :=
  (minuteCalls.filter (fun t => now - t < 60),
   hourCalls.filter (fun t => now - t < 3600))

/-- `RateLimiter.wait_if_needed` (lines 53-78).  Returns the computed wait
time together with the list of sleeps the call itself performs
(`time.sleep(wait_time)` on line 76 whenever `wait_time > 0`).
`headD 0` models the `self._minute_calls[0]` subscript; the default is
unreachable whenever the configured limit is at least 1 (with a limit of 0 and
an empty window the source would raise `IndexError`). -/
def waitIfNeeded (cfg : RateLimitConfig) (minuteCalls hourCalls : List ℚ)
    (now : ℚ) : ℚ × List ℚ :=
  let mc := (cleanupOldCalls now minuteCalls hourCalls).1
  let hc := (cleanupOldCalls now minuteCalls hourCalls).2
  let w1 : ℚ :=
    if cfg.requestsPerMinute ≤ mc.length then
      max 0 (60 - (now - mc.headD 0))
    else 0
  let w : ℚ :=
    if cfg.requestsPerHour ≤ hc.length then
      max w1 (max 0 (3600 - (now - hc.headD 0)))
    else w1
  (w, if 0 < w then [w] else [])

/-- `RateLimiter.record_call` (lines 80-85): append `now` to both windows. -/
def recordCall (now : ℚ) (minuteCalls hourCalls : List ℚ) :
    List ℚ × List ℚ :=
  (minuteCalls ++ [now], hourCalls ++ [now])

/-! ### The CLI retry loop (`BaseAgent._call_cli`, base_agent.py lines 109-183)

One attempt of the `subprocess.run` call is abstracted as an outcome supplied
by the environment: the process either succeeds with its stdout, raises
`subprocess.TimeoutExpired`, raises `subprocess.CalledProcessError` (non-zero
exit; carrying `e.stderr` and the fallback text `str(e)`), or raises
`FileNotFoundError` (missing executable).  `outcome i` is the outcome of the
`i`-th attempt (0-based). -/

/-- Outcome of one `subprocess.run` attempt. -/
inductive CliOutcome where
  | success (stdout : String)
  | timeoutExpired (stderr : Option String)
  | calledProcessError (stderr : Option String) (reprStr : String)
  | fileNotFound
deriving DecidableEq

/-- Result of `_call_cli`: the returned text, a raised `RuntimeError` with its
message, or the implicit `None` fall-through when `max_retries = 0` makes the
`for` loop body never run. -/
inductive CliResult where
  | ok (output : String)
  | err (msg : String)
  | fellThrough
deriving DecidableEq

/-- base_agent.py line 168: `error_msg = e.stderr[:500] if e.stderr else str(e)`. -/
def procErrMsg (stderr : Option String) (reprStr : String) : String :=
  match stderr with
  | some s => if s = "" then reprStr else s.take 500
  | none => reprStr

/-- The message of the `RuntimeError` raised after the final timeout
(base_agent.py line 166). -/
def timeoutErrMsg : String := "Claude Code CLI timed out after 3 minutes"

/-- The message of the `RuntimeError` raised on `FileNotFoundError`
(base_agent.py lines 180-183). -/
def notFoundErrMsg : String :=
  "Claude Code CLI not found. Install it from: https://github.com/anthropics/claude-code"

/-- The attempt loop `for attempt in range(max_retries)` of `_call_cli`
(base_agent.py lines 127-183), from attempt index `attempt` on.  `remaining`
counts the loop iterations still to run; every call keeps the invariant
`remaining = maxRetries - attempt`, so `remaining = 0` is exactly the
exhaustion of the `range`, where the Python function falls off the end and
implicitly returns `None`.  Besides the result, the total number of attempts
issued is returned. -/
def callCliLoop (outcome : Nat → CliOutcome) (maxRetries : Nat) :
    Nat → Nat → CliResult × Nat
  | _, 0 => (CliResult.fellThrough, maxRetries)
  | attempt, r + 1 =>
    match outcome attempt with
    | CliOutcome.success out => (CliResult.ok out, attempt + 1)
    | CliOutcome.timeoutExpired _ =>
      if attempt < maxRetries - 1 then
        callCliLoop outcome maxRetries (attempt + 1) r
      else (CliResult.err timeoutErrMsg, attempt + 1)
    | CliOutcome.calledProcessError stderr reprStr =>
      if attempt < maxRetries - 1 then
        callCliLoop outcome maxRetries (attempt + 1) r
      else (CliResult.err ("Claude Code CLI failed: " ++ procErrMsg stderr reprStr),
            attempt + 1)
    | CliOutcome.fileNotFound => (CliResult.err notFoundErrMsg, attempt + 1)

/-- `BaseAgent._call_cli`'s retry behaviour as a function of the per-attempt
outcomes and `max_retries`. -/
def callCli (outcome : Nat → CliOutcome) (maxRetries : Nat) : CliResult × Nat :=
  callCliLoop outcome maxRetries 0 maxRetries

/-! ### JSON values and `json.loads`

`parse_json_response` and the general manager rely on Python's `json.loads`.
The value space is modelled by `Json`; numbers are restricted to the integer
fragment (a literal with a fractional part or an exponent makes the parse
attempt fail, where Python would produce a float — none of the inputs
considered here contain float literals).  Python dict semantics (duplicate
keys: last value wins, first insertion position kept) is modelled by
`setObjKey`. -/

/-- A parsed JSON value. -/
inductive Json where
  | null
  | boolean (b : Bool)
  | num (n : Int)
  | str (s : String)
  | arr (items : List Json)
  | obj (entries : List (String × Json))

/-- Python dict assignment `d[k] = v`: overwrite in place if the key exists,
otherwise append. -/
def setObjKey (entries : List (String × Json)) (k : String) (v : Json) :
    List (String × Json) :=
  if entries.any (fun e => e.1 = k) then
    entries.map (fun e => if e.1 = k then (k, v) else e)
  else entries ++ [(k, v)]

/-- Build a dict from parsed key/value pairs (duplicate keys: last wins). -/
def buildDict (kvs : List (String × Json)) : List (String × Json) :=
  kvs.foldl (fun acc kv => setObjKey acc kv.1 kv.2) []

/-- The opening-brace character, `Char.ofNat 123`. -/
def openBraceChar : Char := Char.ofNat 123

/-- The closing-brace character, `Char.ofNat 125`. -/
def closeBraceChar : Char := Char.ofNat 125

/-- JSON inter-token whitespace. -/
def isJsonWs (c : Char) : Bool :=
  c = ' ' || c = '\t' || c = '\n' || c = '\r'

/-- Skip leading JSON whitespace. -/
def skipWsL : List Char → List Char
  | [] => []
  | c :: cs => if isJsonWs c then skipWsL cs else c :: cs

/-- Value of a hexadecimal digit. -/
def hexVal (c : Char) : Option Nat :=
  if '0' ≤ c ∧ c ≤ '9' then some (c.toNat - 48)
  else if 'a' ≤ c ∧ c ≤ 'f' then some (c.toNat - 87)
  else if 'A' ≤ c ∧ c ≤ 'F' then some (c.toNat - 70)
  else none

/-- Translation of a single-character JSON escape. -/
def escChar (e : Char) : Option Char :=
  if e = '"' then some '"'
  else if e = '\\' then some '\\'
  else if e = '/' then some '/'
  else if e = 'b' then some (Char.ofNat 8)
  else if e = 'f' then some (Char.ofNat 12)
  else if e = 'n' then some '\n'
  else if e = 'r' then some '\r'
  else if e = 't' then some '\t'
  else none

/-- Parse the body of a JSON string (the opening quote already consumed),
returning the decoded characters and the remaining input.  Raw control
characters are rejected (as by `json.loads` in strict mode); `\uXXXX`
escapes are decoded, except surrogate code units, which are rejected. -/
def parseStringChars : List Char → Option (List Char × List Char)
  | [] => none
  | c :: cs =>
    if c = '"' then some ([], cs)
    else if c = '\\' then
      match cs with
      | [] => none
      | e :: cs2 =>
        if e = 'u' then
          match cs2 with
          | h1 :: h2 :: h3 :: h4 :: cs3 =>
            match hexVal h1, hexVal h2, hexVal h3, hexVal h4 with
            | some d1, some d2, some d3, some d4 =>
              let v := 4096 * d1 + 256 * d2 + 16 * d3 + d4
              if 55296 ≤ v ∧ v < 57344 then none
              else
                match parseStringChars cs3 with
                | some (out, rest) => some (Char.ofNat v :: out, rest)
                | none => none
            | _, _, _, _ => none
          | _ => none
        else
          match escChar e with
          | some d =>
            match parseStringChars cs2 with
            | some (out, rest) => some (d :: out, rest)
            | none => none
          | none => none
    else if c.toNat < 32 then none
    else
      match parseStringChars cs with
      | some (out, rest) => some (c :: out, rest)
      | none => none

/-- Collect a maximal run of decimal digits. -/
def takeDigits : List Char → List Char × List Char
  | [] => ([], [])
  | c :: cs =>
    if '0' ≤ c ∧ c ≤ '9' then
      match takeDigits cs with
      | (ds, rest) => (c :: ds, rest)
    else ([], c :: cs)

/-- Numeric value of a digit run. -/
def digitsVal (ds : List Char) : Nat :=
  ds.foldl (fun acc c => 10 * acc + (c.toNat - 48)) 0

/-- Parse a JSON integer literal (`-?(0|[1-9][0-9]*)`), rejecting a leading
zero before further digits and rejecting a following `.`, `e` or `E`
(a float literal, outside the embedded integer fragment). -/
def parseIntToken (l : List Char) : Option (Json × List Char) :=
  let core : List Char → Option (Nat × List Char) := fun l2 =>
    match takeDigits l2 with
    | ([], _) => none
    | (d :: ds, rest) =>
      if d = '0' ∧ ds ≠ [] then none
      else
        match rest with
        | [] => some (digitsVal (d :: ds), [])
        | r :: rs =>
          if r = '.' ∨ r = 'e' ∨ r = 'E' then none
          else some (digitsVal (d :: ds), r :: rs)
  match l with
  | '-' :: l2 =>
    match core l2 with
    | some (n, rest) => some (Json.num (-(n : Int)), rest)
    | none => none
  | _ =>
    match core l with
    | some (n, rest) => some (Json.num (n : Int), rest)
    | none => none

/-- Match a literal character sequence. -/
def stripChars (pat : List Char) (l : List Char) : Option (List Char) :=
  match pat, l with
  | [], rest => some rest
  | p :: ps, c :: cs => if c = p then stripChars ps cs else none
  | _ :: _, [] => none

/-- Parse the comma-separated items of a JSON array, after the opening
bracket (nonempty case); `pv` parses one value. -/
def parseArrItems (pv : List Char → Option (Json × List Char)) :
    Nat → List Char → Option (List Json × List Char)
  | 0, _ => none
  | fuel + 1, l =>
    match pv l with
    | none => none
    | some (v, r) =>
      match skipWsL r with
      | c :: r2 =>
        if c = ',' then
          match parseArrItems pv fuel r2 with
          | some (vs, r3) => some (v :: vs, r3)
          | none => none
        else if c = ']' then some ([v], r2)
        else none
      | [] => none

/-- Parse the comma-separated `"key": value` fields of a JSON object, after
the opening brace (nonempty case); `pv` parses one value. -/
def parseObjFields (pv : List Char → Option (Json × List Char)) :
    Nat → List Char → Option (List (String × Json) × List Char)
  | 0, _ => none
  | fuel + 1, l =>
    match skipWsL l with
    | '"' :: r =>
      match parseStringChars r with
      | none => none
      | some (kcs, r2) =>
        match skipWsL r2 with
        | ':' :: r3 =>
          match pv r3 with
          | none => none
          | some (v, r4) =>
            match skipWsL r4 with
            | c :: r5 =>
              if c = ',' then
                match parseObjFields pv fuel r5 with
                | some (kvs, r6) => some ((String.mk kcs, v) :: kvs, r6)
                | none => none
              else if c = closeBraceChar then some ([(String.mk kcs, v)], r5)
              else none
            | [] => none
        | _ => none
    | _ => none

/-- Parse one JSON value (leading whitespace skipped). -/
def parseJsonValue : Nat → List Char → Option (Json × List Char)
  | 0, _ => none
  | fuel + 1, l =>
    match skipWsL l with
    | [] => none
    | c :: rest =>
      if c = '"' then
        match parseStringChars rest with
        | some (cs, r) => some (Json.str (String.mk cs), r)
        | none => none
      else if c = openBraceChar then
        match skipWsL rest with
        | c2 :: r2 =>
          if c2 = closeBraceChar then some (Json.obj [], r2)
          else
            match parseObjFields (parseJsonValue fuel) (l.length + 1) rest with
            | some (kvs, r3) => some (Json.obj (buildDict kvs), r3)
            | none => none
        | [] => none
      else if c = '[' then
        match skipWsL rest with
        | c2 :: r2 =>
          if c2 = ']' then some (Json.arr [], r2)
          else
            match parseArrItems (parseJsonValue fuel) (l.length + 1) rest with
            | some (vs, r3) => some (Json.arr vs, r3)
            | none => none
        | [] => none
      else if c = 't' then
        match stripChars ['r', 'u', 'e'] rest with
        | some r => some (Json.boolean true, r)
        | none => none
      else if c = 'f' then
        match stripChars ['a', 'l', 's', 'e'] rest with
        | some r => some (Json.boolean false, r)
        | none => none
      else if c = 'n' then
        match stripChars ['u', 'l', 'l'] rest with
        | some r => some (Json.null, r)
        | none => none
      else parseIntToken (c :: rest)

/-- `json.loads` on the integer fragment: parse one value, then require only
whitespace to remain. -/
def jsonLoads (s : String) : Option Json :=
  match parseJsonValue (s.data.length + 1) s.data with
  | some (v, rest) => if skipWsL rest = [] then some v else none
  | none => none

/-! ### `BaseAgent.parse_json_response` (base_agent.py lines 185-237)

Python string operations (`strip`, `split`, `join`, slicing, `startswith`)
are implemented over the character list of the string, so that every
definition evaluates by kernel reduction. -/

/-- Python `str.strip()` whitespace. -/
def isPyWs (c : Char) : Bool :=
  c = ' ' || c = '\t' || c = '\n' || c = '\r' || c = Char.ofNat 11 || c = Char.ofNat 12

/-- Drop leading Python whitespace. -/
def dropLeadingWs : List Char → List Char
  | [] => []
  | c :: cs => if isPyWs c then dropLeadingWs cs else c :: cs

/-- Python `str.strip()`. -/
def pyStrip (s : String) : String :=
  String.mk ((dropLeadingWs (dropLeadingWs s.data.reverse).reverse))

/-- Python `str.split('\n')` as lists of characters. -/
def splitLinesAux : List Char → List Char → List (List Char)
  | [], acc => [acc.reverse]
  | c :: cs, acc =>
    if c = '\n' then acc.reverse :: splitLinesAux cs []
    else splitLinesAux cs (c :: acc)

/-- Python `str.split('\n')`. -/
def splitLines (s : String) : List String :=
  (splitLinesAux s.data []).map String.mk

/-- Python `'\n'.join(lines)`. -/
def joinLines : List String → String
  | [] => ""
  | [l] => l
  | l :: ls => String.mk (l.data ++ '\n' :: (joinLines ls).data)

/-- Python slicing `s[:n]` (by code points). -/
def strTake (s : String) (n : Nat) : String := String.mk (s.data.take n)

/-- The backtick character, `Char.ofNat 96`. -/
def backtickChar : Char := Char.ofNat 96

/-- The three-character fence marker. -/
def fenceMarker : List Char := [backtickChar, backtickChar, backtickChar]

/-- Python `str.startswith(pre)`. -/
def pyStartsWith (pre : List Char) (s : String) : Bool :=
  (stripChars pre s.data).isSome

/-- Scan `lines` indices `i = n-1, ..., 1` (Python
`range(len(lines)-1, 0, -1)`) for the first line whose strip equals the
fence marker. -/
def fenceScan (lines : List String) : Nat → Option Nat
  | 0 => none
  | i + 1 =>
    if (pyStrip (lines.getD (i + 1) "")).data = fenceMarker then some (i + 1)
    else fenceScan lines i

/-- The fence-stripping step (base_agent.py lines 203-212): if the text
starts with a triple backtick, drop the first line and everything from the
last pure-fence line on (or just the last line when no closing fence is
found). -/
def stripCodeFence (text : String) : String :=
  if pyStartsWith fenceMarker text then
    let lines := splitLines text
    let endIdx := (fenceScan lines (lines.length - 1)).getD (lines.length - 1)
    joinLines ((lines.drop 1).take (endIdx - 1))
  else text

/-- Index of the first occurrence of a character. -/
def firstIndexAux (c : Char) : List Char → Nat → Option Nat
  | [], _ => none
  | x :: xs, i => if x = c then some i else firstIndexAux c xs (i + 1)

/-- Index of the first occurrence of a character. -/
def firstIndexOf (c : Char) (l : List Char) : Option Nat :=
  firstIndexAux c l 0

/-- Index of the last occurrence of a character. -/
def lastIndexOf (c : Char) (l : List Char) : Option Nat :=
  (l.foldl (fun (st : Nat × Option Nat) x =>
    (st.1 + 1, if x = c then some st.1 else st.2)) (0, none)).2

/-- The span matched by the greedy regex `open[\s\S]*close` (as in
`re.search(r'\{[\s\S]*\}', text)`): from the first opening character to the
last closing character, when the latter comes after the former. -/
def greedySpan (openC closeC : Char) (text : String) : Option String :=
  match firstIndexOf openC text.data, lastIndexOf closeC text.data with
  | some i, some j =>
    if i ≤ j then some (String.mk ((text.data.drop i).take (j - i + 1)))
    else none
  | _, _ => none

/-- `BaseAgent.parse_json_response` (lines 185-237): strip a leading code
fence, then try a direct parse, then the first greedy `{...}` span, then the
first greedy `[...]` span, and finally raise `ValueError` with a truncated
sample of the text. -/
def parseJsonResponse (response : String) : Except String Json :=
  let text := stripCodeFence (pyStrip response)
  match jsonLoads text with
  | some v => Except.ok v
  | none =>
    match
      (match greedySpan openBraceChar closeBraceChar text with
       | some sub => jsonLoads sub
       | none => none) with
    | some v => Except.ok v
    | none =>
      match
        (match greedySpan '[' ']' text with
         | some sub => jsonLoads sub
         | none => none) with
      | some v => Except.ok v
      | none =>
        Except.error ("Could not parse JSON from response: " ++ strTake text 200 ++ "...")

/-! ### `ArchitectAgent._validate_architecture` and `_calculate_layout`
(architect.py lines 178-330)

The candidate architecture handed to `_validate_architecture` is a parsed
dictionary; its components, edges, metrics and test cases are modelled as
structures whose optional fields stand for possibly-absent keys (read with
`.get`/`.setdefault` in the source).  Components carry no coordinates until
`_calculate_layout` assigns them, hence `x y : Option Int`. -/

/-- A project row as used by the architect (`name`, `summary`, `problem`). -/
structure Project where
  name : String
  summary : Option String
  problem : Option String
deriving DecidableEq

/-- A candidate metric dictionary. -/
structure RawMetric where
  req : Option String
  value : Option String
  status : Option String
  weight : Option ℚ
deriving DecidableEq

/-- A metric after `setdefault` (architect.py lines 214-218). -/
structure Metric where
  req : String
  value : String
  status : String
  weight : ℚ
deriving DecidableEq

/-- A candidate test-case dictionary. -/
structure RawTestCase where
  name : Option String
  status : Option String
  weight : Option ℚ
deriving DecidableEq

/-- A test case after `setdefault` (architect.py lines 221-224). -/
structure TestCase where
  name : String
  status : String
  weight : ℚ
deriving DecidableEq

/-- A candidate component dictionary. -/
structure RawComponent where
  id : Option String
  label : Option String
  type : Option String
  status : Option String
  summary : Option String
  problem : Option String
  goals : Option (List String)
  scope : Option (List String)
  requirements : Option (List String)
  risks : Option (List String)
  inputs : Option (List String)
  outputs : Option (List String)
  files : Option (List String)
  subtasks : Option (List String)
  metrics : Option (List RawMetric)
  testCases : Option (List RawTestCase)
deriving DecidableEq

/-- A component after validation. -/
structure Component where
  id : String
  label : String
  type : String
  status : String
  summary : String
  problem : String
  goals : List String
  scope : List String
  requirements : List String
  risks : List String
  inputs : List String
  outputs : List String
  files : List String
  subtasks : List String
  metrics : List Metric
  testCases : List TestCase
  x : Option Int
  y : Option Int
deriving DecidableEq

/-- A candidate edge dictionary; `from`/`to` are read with `.get` in the
validation filter (missing keys would raise `KeyError` at the few places
that subscript them directly, all of which run after the filter). -/
structure RawEdge where
  fromId : Option String
  toId : Option String
  label : Option String
  type : Option String
deriving DecidableEq

/-- The candidate architecture dictionary (`components`/`edges` keys may be
absent, architect.py lines 181-186). -/
structure RawArch where
  components : Option (List RawComponent)
  edges : Option (List RawEdge)
deriving DecidableEq

/-- A validated architecture. -/
structure Arch where
  components : List Component
  edges : List RawEdge
deriving DecidableEq

/-- Python `project.summary or project.name` under `str(...)` (architect.py
line 190): the summary unless it is `None` or empty. -/
def pySummaryOrName (p : Project) : String :=
  match p.summary with
  | some s => if s = "" then p.name else s
  | none => p.name

/-- `hashlib.md5(str(project.summary or project.name).encode()).hexdigest()[:6]`
(architect.py line 190). -/
def archHashOf (p : Project) : String :=
  strTake (md5Hex (pySummaryOrName p)) 6

/-- Decimal rendering of a natural number (kernel-reducible). -/
def natDigitsAux : Nat → Nat → List Char
  | 0, _ => []
  | fuel + 1, n =>
    if n < 10 then [Char.ofNat (48 + n)]
    else natDigitsAux fuel (n / 10) ++ [Char.ofNat (48 + n % 10)]

/-- Decimal rendering of a natural number. -/
def natToStr (n : Nat) : String := String.mk (natDigitsAux (n + 1) n)

/-- The replacement id `f"a_{arch_hash}_{i}"` (architect.py line 196). -/
def generatedId (h : String) (i : Nat) : String :=
  "a_" ++ h ++ "_" ++ natToStr i

/-- The rewrite condition of architect.py line 195:
`not comp.get('id') or comp['id'].startswith('comp_')`. -/
def idNeedsRewrite (id : Option String) : Bool :=
  match id with
  | none => true
  | some s => s = "" || pyStartsWith "comp_".data s

/-- `metric.setdefault(...)` (architect.py lines 214-218). -/
def validateMetric (m : RawMetric) : Metric :=
  { req := m.req.getD "Requirement", value := m.value.getD "TBD",
    status := m.status.getD "pending", weight := m.weight.getD 1 }

/-- `tc.setdefault(...)` (architect.py lines 221-224). -/
def validateTestCase (t : RawTestCase) : TestCase :=
  { name := t.name.getD "Test Case", status := t.status.getD "pending",
    weight := t.weight.getD 1 }

/-- The per-component validation body (architect.py lines 193-224): rewrite
the id when missing/empty/`comp_`-prefixed, and `setdefault` every field. -/
def validateComp (h : String) (i : Nat) (c : RawComponent) : Component :=
  { id := if idNeedsRewrite c.id then generatedId h i else c.id.getD "",
    label := c.label.getD "Unnamed Component",
    type := c.type.getD "node",
    status := c.status.getD "pending",
    summary := c.summary.getD "",
    problem := c.problem.getD "",
    goals := c.goals.getD [],
    scope := c.scope.getD [],
    requirements := c.requirements.getD [],
    risks := c.risks.getD [],
    inputs := c.inputs.getD [],
    outputs := c.outputs.getD [],
    files := c.files.getD [],
    subtasks := c.subtasks.getD [],
    metrics := (c.metrics.getD []).map validateMetric,
    testCases := (c.testCases.getD []).map validateTestCase,
    x := none, y := none }

/-- `for i, comp in enumerate(arch['components'])` (architect.py line 193),
from index `i` on. -/
def defaultComponentsFrom (h : String) : Nat → List RawComponent → List Component
  | _, [] => []
  | i, c :: cs => validateComp h i c :: defaultComponentsFrom h (i + 1) cs

/-- The validated component list before root insertion. -/
def defaultedComponents (p : Project) (a : RawArch) : List Component :=
  defaultComponentsFrom (archHashOf p) 0 (a.components.getD [])

/-- `any(c['type'] == 'root' for c in arch['components'])`
(architect.py line 227). -/
def archHasRoot (p : Project) (a : RawArch) : Bool :=
  (defaultedComponents p a).any (fun c => c.type = "root")

/-- The synthesized root id `f'ROOT_{arch_hash}'` (architect.py line 230). -/
def rootIdOf (p : Project) : String := "ROOT_" ++ archHashOf p

/-- The synthesized root component (architect.py lines 229-246). -/
def rootComponent (p : Project) : Component :=
  { id := rootIdOf p,
    label := p.name,
    type := "root",
    status := "active",
    summary := p.summary.getD "",
    problem := p.problem.getD "",
    goals := [], scope := [], requirements := [], risks := [],
    inputs := ["User Request"],
    outputs := ["Completed System"],
    files := [], subtasks := [], metrics := [], testCases := [],
    x := none, y := none }

/-- The edge appended from the synthesized root to a component without an
incoming edge (architect.py lines 254-259). -/
def rootEdge (rid cid : String) : RawEdge :=
  { fromId := some rid, toId := some cid,
    label := some "Contains", type := some "data" }

/-- The loop of architect.py lines 250-259: walk the non-root components
and append a root edge for each one without an incoming edge in the edge
list as grown so far (`arch['edges']` is mutated inside the loop).  The
membership test models `any(e['to'] == comp['id'] for e in arch['edges'])`;
an edge without a `to` key would raise `KeyError` there. -/
def addRootEdges (rid : String) (comps : List Component) (edges0 : List RawEdge) :
    List RawEdge :=
  comps.foldl
    (fun es c =>
      if es.any (fun e => e.toId = some c.id) then es
      else es ++ [rootEdge rid c.id])
    edges0

/-- The component list after root insertion (architect.py line 247 inserts
the root at position 0). -/
def componentsAfterRoot (p : Project) (a : RawArch) : List Component :=
  if archHasRoot p a then defaultedComponents p a
  else rootComponent p :: defaultedComponents p a

/-- The edge list after root insertion, before referential filtering. -/
def edgesAfterRoot (p : Project) (a : RawArch) : List RawEdge :=
  if archHasRoot p a then a.edges.getD []
  else addRootEdges (rootIdOf p) (defaultedComponents p a) (a.edges.getD [])

/-- `e.get('from') in component_ids` (architect.py line 265): a missing key
(`None`) is never a member. -/
def optIdMem (o : Option String) (ids : List String) : Bool :=
  match o with
  | some s => ids.any (fun x => x = s)
  | none => false

/-- `component_ids = {c['id'] for c in arch['components']}`
(architect.py line 262), as a list. -/
def validArchIds (p : Project) (a : RawArch) : List String :=
  (componentsAfterRoot p a).map (fun c => c.id)

/-- `ArchitectAgent._validate_architecture` (architect.py lines 178-268). -/
def validateArchitecture (p : Project) (a : RawArch) : Arch :=
  { components := componentsAfterRoot p a,
    edges := (edgesAfterRoot p a).filter
      (fun e => optIdMem e.fromId (validArchIds p a) &&
                optIdMem e.toId (validArchIds p a)) }

/-- The parent→child pairs of the edge list (architect.py lines 277-283);
edges reaching `_calculate_layout` have passed the referential filter, so
both keys are present (a missing key would raise `KeyError` in the source). -/
def childrenPairs (edges : List RawEdge) : List (String × String) :=
  edges.filterMap (fun e =>
    match e.fromId, e.toId with
    | some f, some t => some (f, t)
    | _, _ => none)

/-- `children.get(current, [])`: the children of `k` in edge order. -/
def childrenOf (ps : List (String × String)) (k : String) : List String :=
  (ps.filter (fun pr => pr.1 = k)).map (fun pr => pr.2)

/-- The BFS level assignment of architect.py lines 296-304 (`levels` dict and
FIFO queue); the fuel bounds the number of queue pops and
`ps.length + 1` always suffices, every append being driven by a fresh
level assignment. -/
def bfsLevels (ps : List (String × String)) :
    Nat → List String → List (String × Nat) → List (String × Nat)
  | 0, _, levels => levels
  | _ + 1, [], levels => levels
  | fuel + 1, current :: queue, levels =>
    let cl := (levels.lookup current).getD 0
    let step := (childrenOf ps current).foldl
      (fun (st : List (String × Nat) × List String) child =>
        if (st.1.lookup child).isSome then st
        else (st.1 ++ [(child, cl + 1)], st.2 ++ [child]))
      (levels, queue)
    bfsLevels ps fuel step.2 step.1

/-- Map with a running index (Python `enumerate`). -/
def mapIdx (f : Nat → Component → Component) : Nat → List Component → List Component
  | _, [] => []
  | i, c :: cs => f i c :: mapIdx f (i + 1) cs

/-- `ArchitectAgent._calculate_layout` (architect.py lines 270-330): BFS
levels from the root (orphans get level 1), then per-level horizontal
spreading: a component at level `lvl` whose level group has `n` members and
that is preceded by `prev` members of its group gets
`x = 600 - 100*n + 200*prev` and `y = 50 + 150*lvl` (the exact integer
value of `int(start_x + i * 200)` with `start_x = 500 - n*200/2 + 100`). -/
def calculateLayout (a : Arch) : Arch :=
  match a.components with
  | [] => a
  | c0 :: _ =>
    let ps := childrenPairs a.edges
    let rootId0 :=
      match a.components.find? (fun c => c.type = "root") with
      | some r => r.id
      | none => c0.id
    let levels0 := bfsLevels ps (ps.length + 1) [rootId0] [(rootId0, 0)]
    let levelsFinal := a.components.foldl
      (fun lv c => if (lv.lookup c.id).isSome then lv else lv ++ [(c.id, 1)])
      levels0
    { components := mapIdx (fun j c =>
        let lvl := (levelsFinal.lookup c.id).getD 0
        let n := (a.components.filter
          (fun c2 => (levelsFinal.lookup c2.id).getD 0 = lvl)).length
        let prev := ((a.components.take j).filter
          (fun c2 => (levelsFinal.lookup c2.id).getD 0 = lvl)).length
        { c with x := some ((600 : Int) - 100 * (n : Int) + 200 * (prev : Int)),
                 y := some ((50 : Int) + 150 * (lvl : Int)) }) 0 a.components,
      edges := a.edges }

/-- `_validate_architecture` followed by `_calculate_layout`
(architect.py lines 101-104): the normalization pass of the spec. -/
def normalizeArch (p : Project) (a : RawArch) : Arch :=
  calculateLayout (validateArchitecture p a)

/-- The ids of the components of an architecture. -/
def componentIdsOf (ar : Arch) : List String :=
  ar.components.map (fun c => c.id)

/-- Spec predicate: the number of root-typed components. -/
def rootCount (comps : List Component) : Nat :=
  (comps.filter (fun c => c.type = "root")).length

/-- Spec predicate: one expansion step of edge reachability. -/
def reachStep (edges : List RawEdge) (acc : List String) : List String :=
  edges.foldl
    (fun ac e =>
      match e.fromId, e.toId with
      | some f, some t =>
        if ac.any (fun x => x = f) && !(ac.any (fun x => x = t)) then ac ++ [t]
        else ac
      | _, _ => ac)
    acc

/-- Spec predicate: iterated reachability closure. -/
def reachClosure (edges : List RawEdge) : Nat → List String → List String
  | 0, acc => acc
  | n + 1, acc => reachClosure edges n (reachStep edges acc)

/-- Spec predicate: the ids reachable from the (first) root component by
following edges from `from` to `to`. -/
def reachableFromRoot (ar : Arch) : List String :=
  match ar.components.find? (fun c => c.type = "root") with
  | some r => reachClosure ar.edges (ar.edges.length + 1) [r.id]
  | none => []

/-- Spec predicate: every non-root component is reachable from the root. -/
def allNonRootReachable (ar : Arch) : Bool :=
  ar.components.all
    (fun c => c.type = "root" || (reachableFromRoot ar).any (fun x => x = c.id))

/-! ### `GeneralManagerAgent` (general_manager.py)

Database rows are modelled as structures (`DbComponent`, `DbEdge`); the
response of an external call is supplied by the environment.  The keyword
binding of a Python call is modelled explicitly, because
`_create_component_plan` (lines 137-140) and `_validate_plans`
(lines 239-242) invoke `call_claude(system_prompt=..., user_prompt=...)`
while `BaseAgent.call_claude` (base_agent.py lines 74-80) accepts only
`prompt`, `system`, `expect_json`, `max_retries`. -/

/-- A component row as read by the general manager. -/
structure DbComponent where
  id : String
  label : String
  type : String
  summary : Option String
  problem : Option String
  inputs : Option (List String)
  outputs : Option (List String)
deriving DecidableEq

/-- An edge row. -/
structure DbEdge where
  fromId : String
  toId : String
  label : String
  type : String
deriving DecidableEq

/-- A Python runtime error relevant here. -/
inductive PyErr where
  | typeErr
deriving DecidableEq

/-- `component.label.lower().replace(' ', '_')`
(general_manager.py lines 380, 385, 401). -/
def sanitizeLabel (s : String) : String :=
  String.mk ((s.data.map Char.toLower).map (fun c => if c = ' ' then '_' else c))

/-- The entries of `GeneralManagerAgent._fallback_plan`
(general_manager.py lines 375-403). -/
def fallbackPlanEntries (c : DbComponent) : List (String × Json) :=
  [("files", Json.arr
      [Json.obj
         [("path", Json.str ("src/" ++ sanitizeLabel c.label ++ "/index.py")),
          ("purpose", Json.str ("Main implementation for " ++ c.label)),
          ("dependencies", Json.arr [])],
       Json.obj
         [("path", Json.str ("tests/test_" ++ sanitizeLabel c.label ++ ".py")),
          ("purpose", Json.str ("Tests for " ++ c.label)),
          ("dependencies", Json.arr [])]]),
   ("steps", Json.arr
      [Json.obj [("description", Json.str "Set up file structure"), ("order", Json.num 1)],
       Json.obj [("description", Json.str "Implement core logic"), ("order", Json.num 2)],
       Json.obj [("description", Json.str "Add error handling"), ("order", Json.num 3)],
       Json.obj [("description", Json.str "Write tests"), ("order", Json.num 4)]]),
   ("interfaces", Json.obj
      [("inputs", Json.arr ((c.inputs.getD []).map Json.str)),
       ("outputs", Json.arr ((c.outputs.getD []).map Json.str))]),
   ("tests", Json.arr
      [Json.obj [("name", Json.str ("test_" ++ sanitizeLabel c.label ++ "_basic")),
                 ("type", Json.str "unit")]])]

/-- `GeneralManagerAgent._fallback_plan`. -/
def fallbackPlan (c : DbComponent) : Json := Json.obj (fallbackPlanEntries c)

/-- Lines 149-152: `plan['component_id'] = ...` etc.; subscript assignment on
a non-dict value raises `TypeError`. -/
def addComponentRefs (plan : Json) (c : DbComponent) : Option Json :=
  match plan with
  | Json.obj entries =>
    some (Json.obj (setObjKey (setObjKey (setObjKey entries
      "component_id" (Json.str c.id))
      "component_label" (Json.str c.label))
      "component_type" (Json.str c.type)))
  | _ => none

/-- The response-handling tail of `_create_component_plan`
(general_manager.py lines 142-154): `json.loads` the response, fall back to
`_fallback_plan` on `JSONDecodeError`, then attach the component
references. -/
def planFromResponse (c : DbComponent) (response : String) : Except PyErr Json :=
  let plan :=
    match jsonLoads response with
    | some v => v
    | none => fallbackPlan c
  match addComponentRefs plan c with
  | some v => Except.ok v
  | none => Except.error PyErr.typeErr

/-- The parameters of `BaseAgent.call_claude` (base_agent.py lines 74-80),
each with whether it has a default value. -/
def callClaudeParams : List (String × Bool) :=
  [("prompt", false), ("system", true), ("expect_json", true), ("max_retries", true)]

/-- Python keyword binding for a call with keyword arguments only: every
keyword must name a parameter and every parameter without a default must be
bound, else the call raises `TypeError`. -/
def kwargsBindOk (params : List (String × Bool)) (kwargs : List String) : Bool :=
  kwargs.all (fun k => params.any (fun pr => pr.1 = k)) &&
  params.all (fun pr => pr.2 || kwargs.any (fun k => k = pr.1))

/-- The keyword names used at the `call_claude` call sites of
`_create_component_plan` (lines 137-140) and `_validate_plans`
(lines 239-242). -/
def gmPlanKwargs : List String := ["system_prompt", "user_prompt"]

/-- A `call_claude(...)` invocation with the given keyword names: binding
failure raises `TypeError` before anything runs; otherwise the environment's
response text is returned. -/
def callClaudeInvoke (kwargs : List String) (response : String) :
    Except PyErr String :=
  if kwargsBindOk callClaudeParams kwargs then Except.ok response
  else Except.error PyErr.typeErr

/-- `GeneralManagerAgent._create_component_plan` (lines 111-154): the
`call_claude` invocation followed by the response handling. -/
def createComponentPlan (c : DbComponent) (response : String) :
    Except PyErr Json :=
  match callClaudeInvoke gmPlanKwargs response with
  | Except.error e => Except.error e
  | Except.ok r => planFromResponse c r

/-- The per-component planning loop of `GeneralManagerAgent.execute`
(lines 74-81): each successful plan is appended and saved
(`_save_component_plan`); a raised error propagates.  The second projection
is the list of plans saved before the loop stopped. -/
def gmPlanPhaseAux (resp : Nat → String) :
    List DbComponent → Nat → List (String × Json) →
    Except PyErr (List (String × Json)) × List (String × Json)
  | [], _, acc => (Except.ok acc, acc)
  | c :: cs, i, acc =>
    match createComponentPlan c (resp i) with
    | Except.error e => (Except.error e, acc)
    | Except.ok plan => gmPlanPhaseAux resp cs (i + 1) (acc ++ [(c.id, plan)])

/-- The plan phase of `GeneralManagerAgent.execute` over the plannable
(non-root) components, with the environment's responses. -/
def gmPlanPhase (resp : Nat → String) (comps : List DbComponent) :
    Except PyErr (List (String × Json)) × List (String × Json) :=
  gmPlanPhaseAux resp comps 0 []

/-! ### `GeneralManagerAgent._determine_execution_order`
(general_manager.py lines 284-326) -/

/-- A plan as consumed by `_determine_execution_order`
(`component_id`/`component_label`). -/
structure GMPlan where
  componentId : String
  componentLabel : String
deriving DecidableEq

/-- One value of the `component_deps` dict. -/
structure DepEntry where
  key : String
  label : String
  dependsOn : List String
  priority : Nat
deriving DecidableEq

/-- One element of the produced `order` list (lines 317-321). -/
structure OrderItem where
  componentId : String
  label : String
  phase : Nat
deriving DecidableEq

/-- The mutable state of the traversal: the `visited` set (as the list of
elements in insertion order) and the `order` list. -/
structure VisitState where
  visited : List String
  order : List OrderItem
deriving DecidableEq

/-- Python dict key insertion: a new key goes to the end, an existing key
keeps its position. -/
def dictInsert (ks : List String) (k : String) : List String :=
  if k ∈ ks then ks else ks ++ [k]

/-- The key list of a dict built by successive assignments. -/
def dictKeyList (l : List String) : List String :=
  l.foldl dictInsert []

/-- The `label` value after all assignments (the last plan with the key
wins, lines 293-300). -/
def lastLabel (plans : List GMPlan) (k : String) : String :=
  plans.foldl (fun acc pl => if pl.componentId = k then pl.componentLabel else acc) ""

/-- The `depends_on` list of `k`: for every edge with `to_id = k` (in edge
order) the `from_id` is appended (lines 302-305). -/
def dependsOnOf (edges : List DbEdge) (k : String) : List String :=
  (edges.filter (fun e => e.toId = k)).map (fun e => e.fromId)

/-- The `component_deps` dict (lines 292-305), as its entry list in key
insertion order. -/
def buildComponentDeps (plans : List GMPlan) (edges : List DbEdge) :
    List DepEntry :=
  (dictKeyList (plans.map (fun p => p.componentId))).map
    (fun k => { key := k, label := lastLabel plans k,
                dependsOn := dependsOnOf edges k, priority := 0 })

/-- `comp_id in component_deps` lookup. -/
def findDep (deps : List DepEntry) (k : String) : Option DepEntry :=
  deps.find? (fun d => d.key = k)

/-- The recursive `visit` closure (lines 311-321): skip ids already visited
or absent from `component_deps`; otherwise mark the id visited, visit its
`depends_on` list in order, then append it to `order` with phase
`len(order) + 1`.  The fuel bounds the recursion depth; since every
recursive level first marks a fresh id visited, a fuel of
`component_deps`'s size never runs out (the `0` case then being
unreachable). -/
def visitKey (deps : List DepEntry) : Nat → String → VisitState → VisitState
  | 0, _, s => s
  | fuel + 1, k, s =>
    match findDep deps k with
    | none => s
    | some d =>
      if k ∈ s.visited then s
      else
        let s1 := d.dependsOn.foldl (fun st dep => visitKey deps fuel dep st)
          { visited := s.visited ++ [k], order := s.order }
        { visited := s1.visited,
          order := s1.order ++ [{ componentId := k, label := d.label,
                                  phase := s1.order.length + 1 }] }

/-- `GeneralManagerAgent._determine_execution_order` (lines 284-326): build
`component_deps`, then `for comp_id in component_deps: visit(comp_id)`. -/
def determineExecutionOrder (plans : List GMPlan) (edges : List DbEdge) :
    List OrderItem :=
  let deps := buildComponentDeps plans edges
  ((deps.map (fun d => d.key)).foldl
    (fun s k => visitKey deps deps.length k s)
    { visited := [], order := [] }).order

/-! ### Spec-side accessors and concrete instances -/

/-- Spec accessor: the length of the array stored under key `k`. -/
def jsonArrLenAt (entries : List (String × Json)) (k : String) : Option Nat :=
  match entries.lookup k with
  | some (Json.arr xs) => some xs.length
  | _ => none

/-- A raw component with only `id` and `type` present. -/
def mkRawComp (id : Option String) (type : Option String) : RawComponent :=
  { id := id, label := none, type := type, status := none,
    summary := none, problem := none, goals := none, scope := none,
    requirements := none, risks := none, inputs := none, outputs := none,
    files := none, subtasks := none, metrics := none, testCases := none }

/-- A raw edge with both endpoints present. -/
def mkRawEdge (f t : String) : RawEdge :=
  { fromId := some f, toId := some t, label := some "", type := some "data" }

/-- C1 instance: a component whose id is neither empty nor `comp_`-prefixed. -/
def rawKeep1 : RawComponent := mkRawComp (some "keep1") none

/-- C1 instance project. -/
def projC1 : Project := { name := "Proj", summary := some "S", problem := none }

/-- C1 instance architecture. -/
def archC1 : RawArch := { components := some [rawKeep1], edges := some [] }

/-- C1 witness instance. -/
def rawSteady : RawComponent := mkRawComp (some "steady") none

/-- C1 witness architecture. -/
def archC1w : RawArch := { components := some [rawSteady], edges := some [] }

/-- C2 counterexample project. -/
def projC2x : Project := { name := "P2", summary := some "CX2", problem := none }

/-- C2 counterexample: two explicit roots plus a node whose only incoming
edge comes from a nonexistent id. -/
def archC2x : RawArch :=
  { components := some [mkRawComp (some "r1") (some "root"),
                        mkRawComp (some "r2") (some "root"),
                        mkRawComp (some "x") (some "node")],
    edges := some [mkRawEdge "ghost" "x"] }

/-- C2 witness project. -/
def projC2w : Project := { name := "P2w", summary := some "W", problem := none }

/-- C2 witness: a single rootless component and no edges. -/
def archC2w : RawArch :=
  { components := some [mkRawComp (some "w1") none], edges := some [] }

/-- C4 counterexample outcome stream: every attempt times out, the process
having produced the error text `BOOM`. -/
def c4Timeouts : Nat → CliOutcome :=
  fun _ => CliOutcome.timeoutExpired (some "BOOM")

/-- C6 instance configuration: one request per minute. -/
def c6Cfg : RateLimitConfig := { requestsPerMinute := 1 }

/-- C7 witness project. -/
def projC7 : Project := { name := "P7", summary := some "H7", problem := none }

/-- C7 witness: a self-loop edge on an existing id plus a dangling edge. -/
def archC7 : RawArch :=
  { components := some [mkRawComp (some "keep") none],
    edges := some [mkRawEdge "keep" "keep", mkRawEdge "keep" "ghost"] }

/-- C8 instance component. -/
def c8Comp : DbComponent :=
  { id := "c8", label := "My Comp", type := "node", summary := none,
    problem := none, inputs := some ["inp"], outputs := none }

/-- C9 instance component. -/
def c9Comp : DbComponent :=
  { id := "c9", label := "C Nine", type := "node", summary := none,
    problem := none, inputs := none, outputs := none }

/-- C3 instance plans and edges: `A→B`, `B→C`. -/
def c3PlanA : GMPlan := { componentId := "A", componentLabel := "Component A" }

/-- C3 instance plan B. -/
def c3PlanB : GMPlan := { componentId := "B", componentLabel := "Component B" }

/-- C3 instance plan C. -/
def c3PlanC : GMPlan := { componentId := "C", componentLabel := "Component C" }

/-- C3 instance edge `A→B`. -/
def c3EdgeAB : DbEdge := { fromId := "A", toId := "B", label := "", type := "data" }

/-- C3 instance edge `B→C`. -/
def c3EdgeBC : DbEdge := { fromId := "B", toId := "C", label := "", type := "data" }

/-! ## Theorems

First two known-answer anchors for the embedded MD5, then the claim
theorems C1-C10 with their helper lemmas. -/

theorem md5Hex_empty :
    md5Hex "" = "d41d8cd98f00b204e9800998ecf8427e" := by decide

theorem md5Hex_abc :
    md5Hex "abc" = "900150983cd24fb0d6963f7d28e17f72" := by decide

/-- C3: on three plannable components `A`, `B`, `C` with edges `A→B` and
`B→C`, `_determine_execution_order` (the build order of `build_plans`)
returns exactly `[A(phase 1), B(phase 2), C(phase 3)]`: predecessors come
first and phases count up from 1. -/
theorem c3_execution_order_chain :
    determineExecutionOrder [c3PlanA, c3PlanB, c3PlanC] [c3EdgeAB, c3EdgeBC] =
      [{ componentId := "A", label := "Component A", phase := 1 },
       { componentId := "B", label := "Component B", phase := 2 },
       { componentId := "C", label := "Component C", phase := 3 }] := by decide

/-- C5: `parse_json_response` applies its fallback layers in order
(fence-strip, direct parse, first `{...}` span, first `[...]` span, fail),
recovering the object from a fenced block, from a prefixed response and from
bare JSON, and raising `ValueError` on unparsable text. -/
theorem c5_extraction_layers :
    parseJsonResponse "```json\n\x7b\"a\":1\x7d\n```" =
      Except.ok (Json.obj [("a", Json.num 1)]) ∧
    parseJsonResponse "Sure! \x7b\"a\":1\x7d" =
      Except.ok (Json.obj [("a", Json.num 1)]) ∧
    parseJsonResponse "\x7b\"a\":1\x7d" =
      Except.ok (Json.obj [("a", Json.num 1)]) ∧
    parseJsonResponse "not json at all" =
      Except.error "Could not parse JSON from response: not json at all..." :=
  ⟨rfl, rfl, rfl, rfl⟩

/-- C9: with at least one plannable component, the plan phase of
`GeneralManagerAgent.execute` raises `TypeError` before saving any plan,
because `_create_component_plan` (and likewise `_validate_plans`) passes
`call_claude` the keyword arguments `system_prompt`/`user_prompt`, which its
signature `(prompt, system, expect_json, max_retries)` rejects. -/
theorem c9_call_claude_kwargs_type_error (resp : Nat → String)
    (comps : List DbComponent) (h : comps ≠ []) :
    gmPlanPhase resp comps = (Except.error PyErr.typeErr, []) ∧
    kwargsBindOk callClaudeParams gmPlanKwargs = false := by
  cases comps with
  | nil => exact absurd rfl h
  | cons c cs => exact ⟨rfl, rfl⟩

theorem c9_call_claude_kwargs_type_error_witness :
    ([c9Comp] ≠ ([] : List DbComponent)) ∧
    gmPlanPhase (fun _ => "resp") [c9Comp] = (Except.error PyErr.typeErr, []) :=
  ⟨by decide,
   (c9_call_claude_kwargs_type_error (fun _ => "resp") [c9Comp] (by decide)).1⟩

/-- C8: whenever the planning response fails to parse as JSON,
`_create_component_plan` substitutes the deterministic minimal fallback plan
(two files — one source, one test —, four generic steps and one basic test)
with the component references attached, and returns it instead of raising. -/
theorem c8_fallback_on_extraction_failure (c : DbComponent) (response : String)
    (h : jsonLoads response = none) :
    planFromResponse c response = Except.ok (Json.obj (setObjKey (setObjKey
      (setObjKey (fallbackPlanEntries c) "component_id" (Json.str c.id))
      "component_label" (Json.str c.label)) "component_type" (Json.str c.type))) ∧
    jsonArrLenAt (fallbackPlanEntries c) "files" = some 2 ∧
    jsonArrLenAt (fallbackPlanEntries c) "steps" = some 4 ∧
    jsonArrLenAt (fallbackPlanEntries c) "tests" = some 1 := by
  refine ⟨?_, rfl, rfl, rfl⟩
  simp [planFromResponse, h, fallbackPlan, addComponentRefs]

theorem c8_fallback_on_extraction_failure_witness :
    jsonLoads "not json at all" = none ∧
    planFromResponse c8Comp "not json at all" = Except.ok (Json.obj (setObjKey
      (setObjKey (setObjKey (fallbackPlanEntries c8Comp) "component_id"
      (Json.str c8Comp.id)) "component_label" (Json.str c8Comp.label))
      "component_type" (Json.str c8Comp.type))) :=
  ⟨rfl, (c8_fallback_on_extraction_failure c8Comp "not json at all" rfl).1⟩

/-- Helper for C4: when every attempt from `a` to `n-1` times out (and at
least one iteration remains, `a + r = n`), the loop runs all remaining
attempts and then raises the timeout error. -/
theorem callCliLoop_all_timeouts (outcome : Nat → CliOutcome) (n : Nat) :
    ∀ r a, a + r = n → 1 ≤ r →
    (∀ i, a ≤ i → i < n → ∃ e, outcome i = CliOutcome.timeoutExpired e) →
    callCliLoop outcome n a r = (CliResult.err timeoutErrMsg, n) := by
  intro r
  induction r with
  | zero => intro a _ h1; omega
  | succ r ih =>
    intro a hsum _ hto
    obtain ⟨e, he⟩ := hto a (Nat.le_refl a) (by omega)
    simp only [callCliLoop, he]
    by_cases hlt : a < n - 1
    · rw [if_pos hlt]
      exact ih (a + 1) (by omega) (by omega) (fun i h1 h2 => hto i (by omega) h2)
    · rw [if_neg hlt]
      have ha : a + 1 = n := by omega
      rw [ha]

/-- Helper for C4: when every attempt from `a` to `n-1` exits non-zero, the
loop runs all remaining attempts and raises the process error built from the
last attempt's stderr, truncated to 500 characters. -/
theorem callCliLoop_all_procerrs (outcome : Nat → CliOutcome) (n : Nat)
    (st : Option String) (rp : String)
    (hlast : outcome (n - 1) = CliOutcome.calledProcessError st rp) :
    ∀ r a, a + r = n → 1 ≤ r →
    (∀ i, a ≤ i → i < n → ∃ st2 rp2, outcome i = CliOutcome.calledProcessError st2 rp2) →
    callCliLoop outcome n a r =
      (CliResult.err ("Claude Code CLI failed: " ++ procErrMsg st rp), n) := by
  intro r
  induction r with
  | zero => intro a _ h1; omega
  | succ r ih =>
    intro a hsum _ hpe
    by_cases hlt : a < n - 1
    · obtain ⟨st2, rp2, he⟩ := hpe a (Nat.le_refl a) (by omega)
      simp only [callCliLoop, he]
      rw [if_pos hlt]
      exact ih (a + 1) (by omega) (by omega) (fun i h1 h2 => hpe i (by omega) h2)
    · have ha : a = n - 1 := by omega
      rw [ha]
      simp only [callCliLoop, hlast]
      rw [if_neg (by omega)]
      have : n - 1 + 1 = n := by omega
      rw [this]

/-- C4 (amended): for `max_retries = n ≥ 1`, `_call_cli` retries timeouts
and non-zero exits up to `n - 1` additional times: a run of `n` timeouts
raises only after exactly `n` attempts, with the fixed timeout message (the
truncated last error output is carried only by the non-zero-exit error, as
the third conjunct shows); a missing executable raises immediately after the
first attempt. -/
theorem c4_retry_counts (n : Nat) (hn : 1 ≤ n) (outcome : Nat → CliOutcome) :
    ((∀ i, i < n → ∃ e, outcome i = CliOutcome.timeoutExpired e) →
      callCli outcome n = (CliResult.err timeoutErrMsg, n)) ∧
    (outcome 0 = CliOutcome.fileNotFound →
      callCli outcome n = (CliResult.err notFoundErrMsg, 1)) ∧
    ((∀ i, i < n → ∃ st rp, outcome i = CliOutcome.calledProcessError st rp) →
      ∀ st rp, outcome (n - 1) = CliOutcome.calledProcessError st rp →
      callCli outcome n =
        (CliResult.err ("Claude Code CLI failed: " ++ procErrMsg st rp), n)) := by
  refine ⟨?_, ?_, ?_⟩
  · intro hto
    exact callCliLoop_all_timeouts outcome n n 0 (by omega) hn
      (fun i _ h2 => hto i h2)
  · intro hnf
    obtain ⟨m, rfl⟩ : ∃ m, n = m + 1 := ⟨n - 1, by omega⟩
    simp only [callCli, callCliLoop, hnf]
  · intro hpe st rp hlast
    exact callCliLoop_all_procerrs outcome n st rp hlast n 0 (by omega) hn
      (fun i _ h2 => hpe i h2)

theorem c4_retry_counts_witness :
    (1 ≤ 3) ∧
    callCli (fun _ => CliOutcome.timeoutExpired none) 3 =
      (CliResult.err timeoutErrMsg, 3) :=
  ⟨by decide, (c4_retry_counts 3 (by decide) _).1 (fun i _ => ⟨none, rfl⟩)⟩

/-- C4 counterexample: a call that times out on its only attempt raises the
constant message `"Claude Code CLI timed out after 3 minutes"`, which does
not contain the attempt's error output (`BOOM`) — the claim's parenthesis
"carrying the truncated last error output" fails on the timeout path
(truncation to 500 characters applies only to the non-zero-exit error). -/
theorem c4_counterexample :
    callCli c4Timeouts 1 = (CliResult.err timeoutErrMsg, 1) ∧
    ¬ List.IsInfix "BOOM".data timeoutErrMsg.data :=
  ⟨rfl, by decide⟩

/-- C6 (amended): `wait_if_needed` returns the larger of the two windows'
required waits (first conjunct: 0 whenever both window counts are strictly
below their limits; second: at least the time until the oldest minute-window
call ages out when that window is full; third: the symmetric max form), but
it does sleep itself for that duration before returning (fourth conjunct) —
the caller in `_call_cli` then sleeps again for the same duration. -/
theorem c6_wait_time (cfg : RateLimitConfig) (mc hc : List ℚ) (now : ℚ) :
    ((mc.filter (fun t => now - t < 60)).length < cfg.requestsPerMinute →
      (hc.filter (fun t => now - t < 3600)).length < cfg.requestsPerHour →
      waitIfNeeded cfg mc hc now = (0, [])) ∧
    (∀ t0, (mc.filter (fun t => now - t < 60)).head? = some t0 →
      cfg.requestsPerMinute ≤ (mc.filter (fun t => now - t < 60)).length →
      60 - (now - t0) ≤ (waitIfNeeded cfg mc hc now).1) ∧
    ((waitIfNeeded cfg mc hc now).1 =
      max
        (if cfg.requestsPerMinute ≤ (mc.filter (fun t => now - t < 60)).length
         then max 0 (60 - (now - (mc.filter (fun t => now - t < 60)).headD 0))
         else 0)
        (if cfg.requestsPerHour ≤ (hc.filter (fun t => now - t < 3600)).length
         then max 0 (3600 - (now - (hc.filter (fun t => now - t < 3600)).headD 0))
         else 0)) ∧
    ((waitIfNeeded cfg mc hc now).2 =
      if 0 < (waitIfNeeded cfg mc hc now).1
      then [(waitIfNeeded cfg mc hc now).1] else []) := by
  refine ⟨?_, ?_, ?_, ?_⟩
  · intro h1 h2
    simp only [waitIfNeeded, cleanupOldCalls]
    rw [if_neg (by omega), if_neg (by omega)]
    norm_num
  · intro t0 hh hlen
    simp only [waitIfNeeded, cleanupOldCalls]
    rw [if_pos hlen]
    have hd : (mc.filter (fun t => now - t < 60)).headD 0 = t0 := by
      cases hfm : mc.filter (fun t => now - t < 60) with
      | nil => rw [hfm] at hh; cases hh
      | cons a l =>
        rw [hfm] at hh
        injection hh with h
    rw [hd]
    split_ifs with h2
    · exact le_trans (le_max_right 0 _) (le_max_left _ _)
    · exact le_max_right 0 _
  · simp only [waitIfNeeded, cleanupOldCalls]
    split_ifs with h1 h2 h2
    · rfl
    · rfl
    · exact (max_eq_left (le_max_left 0 _)).symm
    · simp
  · rfl

theorem c6_wait_time_witness :
    ((([100] : List ℚ).filter (fun t => (130 : ℚ) - t < 60)).head? = some 100) ∧
    (c6Cfg.requestsPerMinute ≤
      (([100] : List ℚ).filter (fun t => (130 : ℚ) - t < 60)).length) ∧
    60 - ((130 : ℚ) - 100) ≤ (waitIfNeeded c6Cfg [100] [100] 130).1 :=
  ⟨by norm_num, by norm_num [c6Cfg],
   (c6_wait_time c6Cfg [100] [100] 130).2.1 100 (by norm_num) (by norm_num [c6Cfg])⟩

/-- C6 counterexample: with a full minute window (limit 1, one call 30
seconds old), `wait_if_needed` returns 30 and itself performs the sleep
(`time.sleep(30)`, the nonempty sleep trace), refuting "does not itself
sleep (the caller sleeps explicitly)". -/
theorem c6_counterexample :
    (waitIfNeeded c6Cfg [100] [100] 130).2 = [30] ∧
    (waitIfNeeded c6Cfg [100] [100] 130).2 ≠ [] := by
  constructor
  · norm_num [waitIfNeeded, cleanupOldCalls, c6Cfg]
  · norm_num [waitIfNeeded, cleanupOldCalls, c6Cfg]

/-- Helper: a position-only update leaves `(id, type, label)` of every
component unchanged under `mapIdx`. -/
theorem mapIdx_map_triple (f : Nat → Component → Component)
    (hf : ∀ i c, ((f i c).id, (f i c).type, (f i c).label) = (c.id, c.type, c.label)) :
    ∀ (i : Nat) (l : List Component),
      (mapIdx f i l).map (fun c => (c.id, c.type, c.label)) =
        l.map (fun c => (c.id, c.type, c.label)) := by
  intro i l
  induction l generalizing i with
  | nil => rfl
  | cons c cs ih =>
    simp only [mapIdx, List.map_cons]
    rw [hf i c, ih (i + 1)]

/-- Helper: `_calculate_layout` only writes coordinates — ids, types, labels
and the edge list are untouched. -/
theorem calculateLayout_triple (a : Arch) :
    (calculateLayout a).components.map (fun c => (c.id, c.type, c.label)) =
      a.components.map (fun c => (c.id, c.type, c.label)) ∧
    (calculateLayout a).edges = a.edges := by
  rcases ha : a.components with _ | ⟨c0, rest⟩
  · constructor <;> simp [calculateLayout, ha]
  · constructor
    · simp only [calculateLayout, ha]
      apply mapIdx_map_triple
      intro i c
      rfl
    · simp [calculateLayout, ha]

/-- Helper: the component ids after the full normalization equal the ids
computed inside `_validate_architecture`. -/
theorem normalizeArch_ids (p : Project) (a : RawArch) :
    componentIdsOf (normalizeArch p a) = validArchIds p a := by
  have h := (calculateLayout_triple (validateArchitecture p a)).1
  have h2 := congrArg (List.map (fun t : String × String × String => t.1)) h
  rw [List.map_map, List.map_map] at h2
  exact h2

/-- Helper: normalization preserves the edge list produced by
`_validate_architecture`. -/
theorem normalizeArch_edges (p : Project) (a : RawArch) :
    (normalizeArch p a).edges = (validateArchitecture p a).edges :=
  (calculateLayout_triple (validateArchitecture p a)).2

/-- Helper: the root count survives `_calculate_layout`. -/
theorem normalizeArch_rootCount (p : Project) (a : RawArch) :
    rootCount (normalizeArch p a).components = rootCount (componentsAfterRoot p a) := by
  have h := (calculateLayout_triple (validateArchitecture p a)).1
  unfold rootCount
  rw [← List.countP_eq_length_filter, ← List.countP_eq_length_filter]
  have h2 := congrArg
    (List.countP (fun t : String × String × String => t.2.1 = "root")) h
  rw [List.countP_map, List.countP_map] at h2
  exact h2

/-- Helper: the edge list only grows along the root-edge loop. -/
theorem addRootEdges_mono (rid : String) :
    ∀ (comps : List Component) (es : List RawEdge) (e : RawEdge),
      e ∈ es → e ∈ addRootEdges rid comps es := by
  intro comps
  induction comps with
  | nil => intro es e he; exact he
  | cons c cs ih =>
    intro es e he
    show e ∈ addRootEdges rid cs
      (if es.any (fun e2 => e2.toId = some c.id) then es
       else es ++ [rootEdge rid c.id])
    by_cases hany : (es.any (fun e2 => e2.toId = some c.id)) = true
    · rw [if_pos hany]; exact ih es e he
    · rw [if_neg hany]; exact ih _ e (List.mem_append_left _ he)

/-- Helper: a component all of whose incoming edges in the accumulator are
already its own root edge ends up with its root edge present (the loop of
architect.py lines 250-259 checks the growing list, so an id that gained a
root edge earlier also qualifies). -/
theorem addRootEdges_mem_of_no_incoming (rid : String) :
    ∀ (comps : List Component) (es : List RawEdge) (c : Component),
      c ∈ comps →
      (∀ e ∈ es, e.toId = some c.id → e = rootEdge rid c.id) →
      rootEdge rid c.id ∈ addRootEdges rid comps es := by
  intro comps
  induction comps with
  | nil => intro es c hc _; exact absurd hc (List.not_mem_nil c)
  | cons c0 cs ih =>
    intro es c hc hinv
    rcases List.mem_cons.mp hc with rfl | hmem
    · show rootEdge rid c.id ∈ addRootEdges rid cs
        (if es.any (fun e2 => e2.toId = some c.id) then es
         else es ++ [rootEdge rid c.id])
      by_cases hany : (es.any (fun e2 => e2.toId = some c.id)) = true
      · obtain ⟨e, he, hpe⟩ := List.any_eq_true.mp hany
        have heq : e = rootEdge rid c.id := hinv e he (by simpa using hpe)
        rw [if_pos hany]
        exact addRootEdges_mono rid cs es _ (heq ▸ he)
      · rw [if_neg hany]
        exact addRootEdges_mono rid cs _ _
          (List.mem_append_right _ (List.mem_singleton_self _))
    · show rootEdge rid c.id ∈ addRootEdges rid cs
        (if es.any (fun e2 => e2.toId = some c0.id) then es
         else es ++ [rootEdge rid c0.id])
      refine ih _ c hmem ?_
      intro e he htoe
      by_cases hany : (es.any (fun e2 => e2.toId = some c0.id)) = true
      · rw [if_pos hany] at he
        exact hinv e he htoe
      · rw [if_neg hany] at he
        rcases List.mem_append.mp he with h1 | h2
        · exact hinv e h1 htoe
        · have he2 : e = rootEdge rid c0.id := List.mem_singleton.mp h2
          subst he2
          have hid : c0.id = c.id := by simpa [rootEdge] using htoe
          rw [rootEdge, rootEdge, hid]

/-- Helper: `optIdMem` is membership of the value of a present key. -/
theorem optIdMem_iff (o : Option String) (ids : List String) :
    optIdMem o ids = true ↔ ∃ s, o = some s ∧ s ∈ ids := by
  cases o with
  | none => simp [optIdMem]
  | some s =>
    simp only [optIdMem, List.any_eq_true, decide_eq_true_eq]
    constructor
    · rintro ⟨x, hx, rfl⟩; exact ⟨x, rfl, hx⟩
    · rintro ⟨s2, hs2, hmem⟩
      injection hs2 with h
      exact ⟨s2, hmem, h.symm⟩

/-- Helper: ids of pre-root components are among the final ids. -/
theorem validArchIds_superset (p : Project) (a : RawArch) :
    ∀ s, s ∈ (defaultedComponents p a).map (fun c => c.id) →
      s ∈ validArchIds p a := by
  intro s hs
  unfold validArchIds componentsAfterRoot
  by_cases hr : archHasRoot p a = true
  · rw [if_pos hr]; exact hs
  · rw [if_neg hr]
    simp only [List.map_cons]
    exact List.mem_cons_of_mem _ hs

/-- Helper: a component whose id the validation keeps contributes exactly
that id. -/
theorem defaultComponentsFrom_id_mem (h : String) :
    ∀ (raws : List RawComponent) (i0 : Nat) (c : RawComponent),
      c ∈ raws → idNeedsRewrite c.id = false →
      c.id.getD "" ∈ (defaultComponentsFrom h i0 raws).map (fun x => x.id) := by
  intro raws
  induction raws with
  | nil => intro i0 c hc _; exact absurd hc (List.not_mem_nil c)
  | cons r rs ih =>
    intro i0 c hc hfalse
    rcases List.mem_cons.mp hc with rfl | hmem
    · simp [defaultComponentsFrom, validateComp, hfalse]
    · simp only [defaultComponentsFrom, List.map_cons]
      exact List.mem_cons_of_mem _ (ih (i0 + 1) c hmem hfalse)

/-- Helper: a component whose id the validation rewrites contributes the
generated id built from its enumeration index. -/
theorem defaultComponentsFrom_gen_mem (h : String) :
    ∀ (raws : List RawComponent) (i0 i : Nat) (c : RawComponent),
      raws.get? i = some c → idNeedsRewrite c.id = true →
      generatedId h (i0 + i) ∈ (defaultComponentsFrom h i0 raws).map (fun x => x.id) := by
  intro raws
  induction raws with
  | nil => intro i0 i c hg _; simp at hg
  | cons r rs ih =>
    intro i0 i c hg htrue
    cases i with
    | zero =>
      rw [List.get?_cons_zero] at hg
      injection hg with hg2
      subst hg2
      simp [defaultComponentsFrom, validateComp, htrue]
    | succ i2 =>
      rw [List.get?_cons_succ] at hg
      simp only [defaultComponentsFrom, List.map_cons]
      refine List.mem_cons_of_mem _ ?_
      have harith : i0 + (i2 + 1) = (i0 + 1) + i2 := by omega
      rw [harith]
      exact ih (i0 + 1) i2 c hg htrue

/-- C1 (amended): `_validate_architecture` replaces a component id only when
it is missing, empty, or `comp_`-prefixed (first conjunct: any other id
survives into the result), and the replacement is the deterministic
`a_<md5(summary or name)[:6]>_<index>` (second conjunct) — no fresh
randomness is involved, no old→new mapping is applied to the edges, and two
runs on the same input therefore produce identical, not disjoint, id sets. -/
theorem c1_id_rewrite_policy (p : Project) (a : RawArch) :
    (∀ c ∈ a.components.getD [], idNeedsRewrite c.id = false →
      c.id.getD "" ∈ componentIdsOf (normalizeArch p a)) ∧
    (∀ (i : Nat) (c : RawComponent), (a.components.getD []).get? i = some c →
      idNeedsRewrite c.id = true →
      generatedId (archHashOf p) i ∈ componentIdsOf (normalizeArch p a)) := by
  constructor
  · intro c hc hfalse
    rw [normalizeArch_ids]
    exact validArchIds_superset p a _
      (defaultComponentsFrom_id_mem (archHashOf p) _ 0 c hc hfalse)
  · intro i c hg htrue
    rw [normalizeArch_ids]
    have hmem := defaultComponentsFrom_gen_mem (archHashOf p) _ 0 i c hg htrue
    rw [Nat.zero_add] at hmem
    exact validArchIds_superset p a _ hmem

theorem c1_id_rewrite_policy_witness :
    "steady" ∈ componentIdsOf (normalizeArch projC1 archC1w) :=
  (c1_id_rewrite_policy projC1 archC1w).1 rawSteady (by decide) (by decide)

/-- C1 counterexample: the incoming id `keep1` (neither empty nor
`comp_`-prefixed) is NOT replaced — it appears verbatim in the result — and
the id sets of two normalization runs on the same input share it, so they
are not disjoint. -/
theorem c1_counterexample :
    rawKeep1.id = some "keep1" ∧
    "keep1" ∈ componentIdsOf (normalizeArch projC1 archC1) ∧
    (componentIdsOf (normalizeArch projC1 archC1)).inter
      (componentIdsOf (normalizeArch projC1 archC1)) ≠ [] :=
  ⟨rfl, by decide, by decide⟩

/-- Helper: the head of the layouted component list keeps id/type/label. -/
theorem calculateLayout_head (a : Arch) (c : Component) (cs : List Component)
    (h : a.components = c :: cs) :
    ∃ c0 rest, (calculateLayout a).components = c0 :: rest ∧
      c0.id = c.id ∧ c0.type = c.type ∧ c0.label = c.label := by
  simp only [calculateLayout, h]
  exact ⟨_, _, rfl, rfl, rfl, rfl⟩

/-- C2 (amended): when no candidate component is root-typed (after type
defaulting), normalization synthesizes exactly one root: the result has root
count 1, the synthesized root (id `ROOT_<hash>`, labelled with the project
name) is first in the list, and every component that had no incoming edge in
the candidate edge list receives an edge from the root.  (Components whose
only incoming edges dangle, or cyclic clusters, may stay unreachable, and
candidate lists that already contain root components are left as they are —
the unconditional claim fails, see the counterexample.) -/
theorem c2_root_invariant (p : Project) (a : RawArch)
    (hnr : archHasRoot p a = false) :
    rootCount (normalizeArch p a).components = 1 ∧
    (∃ c0 rest, (normalizeArch p a).components = c0 :: rest ∧
      c0.type = "root" ∧ c0.id = rootIdOf p ∧ c0.label = p.name) ∧
    (∀ c ∈ defaultedComponents p a,
      (∀ e ∈ a.edges.getD [], e.toId ≠ some c.id) →
      ∃ e ∈ (normalizeArch p a).edges,
        e.fromId = some (rootIdOf p) ∧ e.toId = some c.id) := by
  have hcomps : componentsAfterRoot p a = rootComponent p :: defaultedComponents p a := by
    unfold componentsAfterRoot
    rw [if_neg (by rw [hnr]; exact Bool.false_ne_true)]
  refine ⟨?_, ?_, ?_⟩
  · rw [normalizeArch_rootCount, hcomps]
    unfold rootCount
    have hany : (defaultedComponents p a).any (fun c => c.type = "root") = false := hnr
    have hnone : ∀ c ∈ defaultedComponents p a, ¬(c.type = "root") := by
      intro c hc
      have := List.any_eq_false.mp hany c hc
      simpa using this
    rw [List.filter_cons]
    rw [if_pos (by simp [rootComponent])]
    rw [List.filter_eq_nil_iff.mpr (fun c hc => by simpa using hnone c hc)]
    rfl
  · have h := calculateLayout_head (validateArchitecture p a)
      (rootComponent p) (defaultedComponents p a) hcomps
    obtain ⟨c0, rest, heq, hid, htype, hlabel⟩ := h
    exact ⟨c0, rest, heq, htype, hid, hlabel⟩
  · intro c hc hnoinc
    have hpre : rootEdge (rootIdOf p) c.id ∈ edgesAfterRoot p a := by
      unfold edgesAfterRoot
      rw [if_neg (by rw [hnr]; exact Bool.false_ne_true)]
      refine addRootEdges_mem_of_no_incoming (rootIdOf p) _ _ c hc ?_
      intro e he htoe
      exact absurd htoe (hnoinc e he)
    refine ⟨rootEdge (rootIdOf p) c.id, ?_, rfl, rfl⟩
    rw [normalizeArch_edges]
    show _ ∈ (edgesAfterRoot p a).filter _
    rw [List.mem_filter]
    refine ⟨hpre, ?_⟩
    rw [Bool.and_eq_true]
    constructor
    · refine (optIdMem_iff _ _).mpr ⟨rootIdOf p, rfl, ?_⟩
      unfold validArchIds
      rw [hcomps]
      exact List.mem_cons_self _ _
    · refine (optIdMem_iff _ _).mpr ⟨c.id, rfl, ?_⟩
      unfold validArchIds
      rw [hcomps]
      exact List.mem_cons_of_mem _ (List.mem_map_of_mem _ hc)

theorem c2_root_invariant_witness :
    (archHasRoot projC2w archC2w = false) ∧
    rootCount (normalizeArch projC2w archC2w).components = 1 ∧
    (∃ e ∈ (normalizeArch projC2w archC2w).edges,
      e.fromId = some (rootIdOf projC2w) ∧ e.toId = some "w1") := by
  have h := c2_root_invariant projC2w archC2w (by decide)
  refine ⟨by decide, h.1, ?_⟩
  have hc : validateComp (archHashOf projC2w) 0 (mkRawComp (some "w1") none) ∈
      defaultedComponents projC2w archC2w := List.mem_singleton_self _
  exact h.2.2 _ hc (fun e he => absurd he (List.not_mem_nil e))

/-- C2 counterexample: a candidate list with two explicit roots and a node
whose only incoming edge originates from a nonexistent id normalizes to an
architecture with TWO roots in which that node is unreachable from the
(first) root — refuting both "exactly one root for every input" and "every
non-root component is reachable from the root". -/
theorem c2_counterexample :
    rootCount (normalizeArch projC2x archC2x).components = 2 ∧
    allNonRootReachable (normalizeArch projC2x archC2x) = false := by
  constructor
  · decide
  · decide

/-- C7: the referential filter of `_validate_architecture` keeps an edge of
the pre-filter list (candidate edges plus any synthesized root edges)
exactly when both its `from` and `to` keys are present and name ids of
components in the result; kept edges are unchanged and keep their relative
order (the result edge list is a sublist of the pre-filter list): dangling
edges are dropped, never repaired. -/
theorem c7_dangling_edges (p : Project) (a : RawArch) :
    ((normalizeArch p a).edges).Sublist (edgesAfterRoot p a) ∧
    ∀ e ∈ edgesAfterRoot p a,
      (e ∈ (normalizeArch p a).edges ↔
        (∃ f, e.fromId = some f ∧ f ∈ componentIdsOf (normalizeArch p a)) ∧
        (∃ t, e.toId = some t ∧ t ∈ componentIdsOf (normalizeArch p a))) := by
  constructor
  · rw [normalizeArch_edges]
    exact List.filter_sublist _
  · intro e he
    rw [normalizeArch_edges, normalizeArch_ids]
    show e ∈ (edgesAfterRoot p a).filter _ ↔ _
    rw [List.mem_filter]
    constructor
    · rintro ⟨-, hcond⟩
      rw [Bool.and_eq_true] at hcond
      exact ⟨(optIdMem_iff _ _).mp hcond.1, (optIdMem_iff _ _).mp hcond.2⟩
    · rintro ⟨h1, h2⟩
      refine ⟨he, ?_⟩
      rw [Bool.and_eq_true]
      exact ⟨(optIdMem_iff _ _).mpr h1, (optIdMem_iff _ _).mpr h2⟩

theorem c7_dangling_edges_witness :
    (mkRawEdge "keep" "ghost" ∈ edgesAfterRoot projC7 archC7) ∧
    mkRawEdge "keep" "ghost" ∉ (normalizeArch projC7 archC7).edges ∧
    mkRawEdge "keep" "keep" ∈ (normalizeArch projC7 archC7).edges := by
  refine ⟨by decide, ?_, ?_⟩
  · intro hmem
    have h := ((c7_dangling_edges projC7 archC7).2 (mkRawEdge "keep" "ghost")
      (by decide)).mp hmem
    obtain ⟨-, t, ht, htm⟩ := h
    have ht2 : t = "ghost" := by
      injection ht with h2
      exact h2.symm
    subst ht2
    exact absurd htm (by decide)
  · exact ((c7_dangling_edges projC7 archC7).2 (mkRawEdge "keep" "keep")
      (by decide)).mpr ⟨⟨"keep", rfl, by decide⟩, ⟨"keep", rfl, by decide⟩⟩

/-- Helper: a successful `component_deps` lookup means the key is present. -/
theorem findDep_mem (deps : List DepEntry) (k : String) (d : DepEntry)
    (h : findDep deps k = some d) : k ∈ deps.map (fun d2 => d2.key) := by
  have h1 := List.find?_some h
  have h2 := List.mem_of_find?_eq_some h
  have h3 : d.key = k := by simpa using h1
  exact h3 ▸ List.mem_map_of_mem _ h2

/-- Helper: a present key makes the `component_deps` lookup succeed. -/
theorem findDep_isSome (deps : List DepEntry) (k : String)
    (h : k ∈ deps.map (fun d2 => d2.key)) : (findDep deps k).isSome := by
  obtain ⟨d, hd, hk⟩ := List.mem_map.mp h
  exact List.find?_isSome.mpr ⟨d, hd, by simpa using hk⟩


/-- Helper (the traversal invariant, single visit): a `visit` call only
appends to `visited` and `order`; everything appended to `visited` is a key
of `component_deps`; the ids appended to `order` are a permutation of the
ids appended to `visited` (each id marked visited is emitted exactly once,
in the same call); `visited` stays duplicate-free; and phase numbers stay
`1..len` in emission order. -/
theorem visitKey_ext (deps : List DepEntry) :
    ∀ (fuel : Nat) (k : String) (s : VisitState), ∃ t u,
      (visitKey deps fuel k s).visited = s.visited ++ t ∧
      (visitKey deps fuel k s).order = s.order ++ u ∧
      (∀ x ∈ t, x ∈ deps.map (fun d2 => d2.key)) ∧
      ((u.map (fun o => o.componentId)).Perm t) ∧
      (s.visited.Nodup → (s.visited ++ t).Nodup) ∧
      (s.order.map (fun o => o.phase) = List.range' 1 s.order.length →
        (visitKey deps fuel k s).order.map (fun o => o.phase) =
          List.range' 1 (visitKey deps fuel k s).order.length) := by
  have hseq : ∀ (fuel : Nat),
      (∀ (k : String) (s : VisitState), ∃ t u,
        (visitKey deps fuel k s).visited = s.visited ++ t ∧
        (visitKey deps fuel k s).order = s.order ++ u ∧
        (∀ x ∈ t, x ∈ deps.map (fun d2 => d2.key)) ∧
        ((u.map (fun o => o.componentId)).Perm t) ∧
        (s.visited.Nodup → (s.visited ++ t).Nodup) ∧
        (s.order.map (fun o => o.phase) = List.range' 1 s.order.length →
          (visitKey deps fuel k s).order.map (fun o => o.phase) =
            List.range' 1 (visitKey deps fuel k s).order.length)) →
      ∀ (l : List String) (s : VisitState), ∃ t u,
        (l.foldl (fun st dep => visitKey deps fuel dep st) s).visited = s.visited ++ t ∧
        (l.foldl (fun st dep => visitKey deps fuel dep st) s).order = s.order ++ u ∧
        (∀ x ∈ t, x ∈ deps.map (fun d2 => d2.key)) ∧
        ((u.map (fun o => o.componentId)).Perm t) ∧
        (s.visited.Nodup → (s.visited ++ t).Nodup) ∧
        (s.order.map (fun o => o.phase) = List.range' 1 s.order.length →
          (l.foldl (fun st dep => visitKey deps fuel dep st) s).order.map (fun o => o.phase) =
            List.range' 1 (l.foldl (fun st dep => visitKey deps fuel dep st) s).order.length) := by
    intro fuel hkey l
    induction l with
    | nil =>
      intro s
      exact ⟨[], [], by simp, by simp, by simp, List.Perm.refl _,
        fun h => by simpa using h, fun h => h⟩
    | cons k ks ih =>
      intro s
      obtain ⟨t1, u1, hv1, ho1, hd1, hp1, hn1, hph1⟩ := hkey k s
      obtain ⟨t2, u2, hv2, ho2, hd2, hp2, hn2, hph2⟩ := ih (visitKey deps fuel k s)
      refine ⟨t1 ++ t2, u1 ++ u2, ?_, ?_, ?_, ?_, ?_, ?_⟩
      · show (ks.foldl _ (visitKey deps fuel k s)).visited = _
        rw [hv2, hv1, List.append_assoc]
      · show (ks.foldl _ (visitKey deps fuel k s)).order = _
        rw [ho2, ho1, List.append_assoc]
      · intro x hx
        rcases List.mem_append.mp hx with h1 | h2
        · exact hd1 x h1
        · exact hd2 x h2
      · rw [List.map_append]
        exact List.Perm.append hp1 hp2
      · intro h
        rw [← List.append_assoc, ← hv1]
        refine hn2 ?_
        rw [hv1]
        exact hn1 h
      · intro h
        exact hph2 (hph1 h)
  intro fuel
  induction fuel with
  | zero =>
    intro k s
    exact ⟨[], [], by simp [visitKey], by simp [visitKey], by simp,
      List.Perm.refl _, fun h => by simpa using h, fun h => by simpa [visitKey] using h⟩
  | succ f ihf =>
    intro k s
    cases hfind : findDep deps k with
    | none =>
      refine ⟨[], [], ?_, ?_, by simp, List.Perm.refl _,
        fun h => by simpa using h, ?_⟩
      · simp [visitKey, hfind]
      · simp [visitKey, hfind]
      · intro h
        simpa [visitKey, hfind] using h
    | some d =>
      by_cases hv : k ∈ s.visited
      · refine ⟨[], [], ?_, ?_, by simp, List.Perm.refl _,
          fun h => by simpa using h, ?_⟩
        · simp [visitKey, hfind, hv]
        · simp [visitKey, hfind, hv]
        · intro h
          simpa [visitKey, hfind, hv] using h
      · obtain ⟨t1, u1, hv1, ho1, hd1, hp1, hn1, hph1⟩ :=
          hseq f ihf d.dependsOn ⟨s.visited ++ [k], s.order⟩
        have hstep : visitKey deps (f + 1) k s =
            ⟨(d.dependsOn.foldl (fun st dep => visitKey deps f dep st)
                ⟨s.visited ++ [k], s.order⟩).visited,
             (d.dependsOn.foldl (fun st dep => visitKey deps f dep st)
                ⟨s.visited ++ [k], s.order⟩).order ++
               [⟨k, d.label,
                 (d.dependsOn.foldl (fun st dep => visitKey deps f dep st)
                   ⟨s.visited ++ [k], s.order⟩).order.length + 1⟩]⟩ := by
          simp [visitKey, hfind, hv]
        refine ⟨[k] ++ t1,
          u1 ++ [⟨k, d.label,
            (d.dependsOn.foldl (fun st dep => visitKey deps f dep st)
              ⟨s.visited ++ [k], s.order⟩).order.length + 1⟩], ?_, ?_, ?_, ?_, ?_, ?_⟩
        · rw [hstep, hv1]
          simp [List.append_assoc]
        · rw [hstep, ho1]
          simp [List.append_assoc]
        · intro x hx
          rcases List.mem_append.mp hx with h1 | h2
          · rw [List.mem_singleton.mp h1]
            exact findDep_mem deps k d hfind
          · exact hd1 x h2
        · simp only [List.map_append, List.map_cons, List.map_nil]
          refine List.Perm.trans List.perm_append_comm ?_
          exact List.Perm.append_left [k] (by simpa using hp1)
        · intro h
          rw [← List.append_assoc]
          refine hn1 ?_
          show (s.visited ++ [k]).Nodup
          rw [List.nodup_append]
          refine ⟨h, List.nodup_singleton k, ?_⟩
          intro a ha hb
          rw [List.mem_singleton.mp hb] at ha
          exact hv ha
        · intro h
          have hords := hph1 h
          rw [hstep]
          dsimp only
          rw [List.map_append, hords]
          simp only [List.map_cons, List.map_nil, List.length_append,
            List.length_cons, List.length_nil, Nat.zero_add]
          rw [List.range'_1_concat, Nat.add_comm 1]

/-- Helper: the traversal invariant, lifted to the `for dep_id in
depends_on` / `for comp_id in component_deps` folds. -/
theorem visitFold_ext (deps : List DepEntry) (fuel : Nat) :
    ∀ (l : List String) (s : VisitState), ∃ t u,
      (l.foldl (fun st dep => visitKey deps fuel dep st) s).visited = s.visited ++ t ∧
      (l.foldl (fun st dep => visitKey deps fuel dep st) s).order = s.order ++ u ∧
      (∀ x ∈ t, x ∈ deps.map (fun d2 => d2.key)) ∧
      ((u.map (fun o => o.componentId)).Perm t) ∧
      (s.visited.Nodup → (s.visited ++ t).Nodup) ∧
      (s.order.map (fun o => o.phase) = List.range' 1 s.order.length →
        (l.foldl (fun st dep => visitKey deps fuel dep st) s).order.map (fun o => o.phase) =
          List.range' 1 (l.foldl (fun st dep => visitKey deps fuel dep st) s).order.length) := by
  intro l
  induction l with
  | nil =>
    intro s
    exact ⟨[], [], by simp, by simp, by simp, List.Perm.refl _,
      fun h => by simpa using h, fun h => h⟩
  | cons k ks ih =>
    intro s
    obtain ⟨t1, u1, hv1, ho1, hd1, hp1, hn1, hph1⟩ := visitKey_ext deps fuel k s
    obtain ⟨t2, u2, hv2, ho2, hd2, hp2, hn2, hph2⟩ := ih (visitKey deps fuel k s)
    refine ⟨t1 ++ t2, u1 ++ u2, ?_, ?_, ?_, ?_, ?_, ?_⟩
    · show (ks.foldl _ (visitKey deps fuel k s)).visited = _
      rw [hv2, hv1, List.append_assoc]
    · show (ks.foldl _ (visitKey deps fuel k s)).order = _
      rw [ho2, ho1, List.append_assoc]
    · intro x hx
      rcases List.mem_append.mp hx with h1 | h2
      · exact hd1 x h1
      · exact hd2 x h2
    · rw [List.map_append]
      exact List.Perm.append hp1 hp2
    · intro h
      rw [← List.append_assoc, ← hv1]
      refine hn2 ?_
      rw [hv1]
      exact hn1 h
    · intro h
      exact hph2 (hph1 h)

/-- Helper: with at least one unit of fuel, visiting a key present in
`component_deps` marks it visited (the mark precedes the recursion into its
predecessors, which is what makes the traversal terminate on cycles). -/
theorem visitKey_marks (deps : List DepEntry) (fuel : Nat) (k : String)
    (s : VisitState) (hk : k ∈ deps.map (fun d2 => d2.key)) (hfuel : 1 ≤ fuel) :
    k ∈ (visitKey deps fuel k s).visited := by
  obtain ⟨f, rfl⟩ : ∃ f, fuel = f + 1 := ⟨fuel - 1, by omega⟩
  cases hfind : findDep deps k with
  | none =>
    have := findDep_isSome deps k hk
    rw [hfind] at this
    simp at this
  | some d =>
    by_cases hv : k ∈ s.visited
    · have hstep : visitKey deps (f + 1) k s = s := by simp [visitKey, hfind, hv]
      rw [hstep]
      exact hv
    · have hstep : visitKey deps (f + 1) k s =
          ⟨(d.dependsOn.foldl (fun st dep => visitKey deps f dep st)
              ⟨s.visited ++ [k], s.order⟩).visited,
           (d.dependsOn.foldl (fun st dep => visitKey deps f dep st)
              ⟨s.visited ++ [k], s.order⟩).order ++
             [⟨k, d.label,
               (d.dependsOn.foldl (fun st dep => visitKey deps f dep st)
                 ⟨s.visited ++ [k], s.order⟩).order.length + 1⟩]⟩ := by
        simp [visitKey, hfind, hv]
      obtain ⟨t1, u1, hv1, ho1, hd1, hp1, hn1, hph1⟩ :=
        visitFold_ext deps f d.dependsOn ⟨s.visited ++ [k], s.order⟩
      rw [hstep, hv1]
      simp

/-- Helper: every key of `component_deps` appearing in the pending list gets
visited by the top-level loop. -/
theorem visitFold_marks (deps : List DepEntry) (fuel : Nat) (hfuel : 1 ≤ fuel) :
    ∀ (l : List String) (s : VisitState) (k : String), k ∈ l →
      k ∈ deps.map (fun d2 => d2.key) →
      k ∈ (l.foldl (fun st dep => visitKey deps fuel dep st) s).visited := by
  intro l
  induction l with
  | nil => intro s k hk _; exact absurd hk (List.not_mem_nil k)
  | cons k0 ks ih =>
    intro s k hk hkey
    rcases List.mem_cons.mp hk with rfl | hmem
    · have h1 : k ∈ (visitKey deps fuel k s).visited :=
        visitKey_marks deps fuel k s hkey hfuel
      obtain ⟨t, u, hvt, -, -, -, -, -⟩ :=
        visitFold_ext deps fuel ks (visitKey deps fuel k s)
      show k ∈ (ks.foldl _ (visitKey deps fuel k s)).visited
      rw [hvt]
      exact List.mem_append_left _ h1
    · exact ih (visitKey deps fuel k0 s) k hmem hkey

/-- Helper: the keys of `component_deps` are the plan ids in dict order. -/
theorem depKeys_buildComponentDeps (plans : List GMPlan) (edges : List DbEdge) :
    (buildComponentDeps plans edges).map (fun d => d.key) =
      dictKeyList (plans.map (fun p => p.componentId)) := by
  unfold buildComponentDeps
  rw [List.map_map]
  exact List.map_id' _

/-- Helper: dict insertion keeps the key list duplicate-free. -/
theorem foldl_dictInsert_nodup :
    ∀ (l : List String) (acc : List String), acc.Nodup →
      (l.foldl dictInsert acc).Nodup := by
  intro l
  induction l with
  | nil => intro acc h; exact h
  | cons k ks ih =>
    intro acc h
    show (ks.foldl dictInsert (dictInsert acc k)).Nodup
    refine ih _ ?_
    unfold dictInsert
    split_ifs with hmem
    · exact h
    · rw [List.nodup_append]
      refine ⟨h, List.nodup_singleton k, ?_⟩
      intro a ha hb
      rw [List.mem_singleton.mp hb] at ha
      exact hmem ha

/-- Helper: dict key lists are duplicate-free. -/
theorem dictKeyList_nodup (l : List String) : (dictKeyList l).Nodup :=
  foldl_dictInsert_nodup l [] List.nodup_nil

/-- C10: `_determine_execution_order` terminates on every finite edge set,
cyclic ones included (each component id is added to `visited` before its
predecessors are recursed into, which the fuelled embedding mirrors), and
emits every plannable component exactly once — the emitted ids are a
permutation of the distinct plan component ids, in dict order — with phase
numbers exactly `1..n` in emission order. -/
theorem c10_scheduler_total (plans : List GMPlan) (edges : List DbEdge) :
    ((determineExecutionOrder plans edges).map (fun o => o.componentId)).Perm
      (dictKeyList (plans.map (fun p => p.componentId))) ∧
    (determineExecutionOrder plans edges).map (fun o => o.phase) =
      List.range' 1 (determineExecutionOrder plans edges).length := by
  by_cases hnil : buildComponentDeps plans edges = []
  · have hkeys : dictKeyList (plans.map (fun p => p.componentId)) = [] := by
      have h := depKeys_buildComponentDeps plans edges
      rw [hnil] at h
      simpa using h.symm
    have hord : determineExecutionOrder plans edges = [] := by
      simp [determineExecutionOrder, hnil]
    rw [hord, hkeys]
    exact ⟨List.Perm.refl _, by simp⟩
  · have hfuel : 1 ≤ (buildComponentDeps plans edges).length :=
      List.length_pos.mpr hnil
    obtain ⟨t, u, hvt, hou, hdom, hperm, hnodup, hphase⟩ :=
      visitFold_ext (buildComponentDeps plans edges)
        (buildComponentDeps plans edges).length
        ((buildComponentDeps plans edges).map (fun d => d.key)) ⟨[], []⟩
    have hord : determineExecutionOrder plans edges =
        (((buildComponentDeps plans edges).map (fun d => d.key)).foldl
          (fun st dep => visitKey (buildComponentDeps plans edges)
            (buildComponentDeps plans edges).length dep st) ⟨[], []⟩).order := rfl
    have hvis : (((buildComponentDeps plans edges).map (fun d => d.key)).foldl
        (fun st dep => visitKey (buildComponentDeps plans edges)
          (buildComponentDeps plans edges).length dep st) ⟨[], []⟩).visited = t := by
      simpa using hvt
    have hordu : (((buildComponentDeps plans edges).map (fun d => d.key)).foldl
        (fun st dep => visitKey (buildComponentDeps plans edges)
          (buildComponentDeps plans edges).length dep st) ⟨[], []⟩).order = u := by
      simpa using hou
    have hsup : ∀ x ∈ (buildComponentDeps plans edges).map (fun d => d.key), x ∈ t := by
      intro x hx
      have h := visitFold_marks (buildComponentDeps plans edges)
        (buildComponentDeps plans edges).length hfuel
        ((buildComponentDeps plans edges).map (fun d => d.key)) ⟨[], []⟩ x hx hx
      rw [hvis] at h
      exact h
    have htnodup : t.Nodup := by
      have h := hnodup List.nodup_nil
      simpa using h
    have hknodup : ((buildComponentDeps plans edges).map (fun d => d.key)).Nodup := by
      rw [depKeys_buildComponentDeps]
      exact dictKeyList_nodup _
    have hperm2 : t.Perm ((buildComponentDeps plans edges).map (fun d => d.key)) :=
      (List.perm_ext_iff_of_nodup htnodup hknodup).mpr
        (fun a => ⟨fun h => hdom a h, fun h => hsup a h⟩)
    constructor
    · rw [hord, hordu, ← depKeys_buildComponentDeps plans edges]
      exact hperm.trans hperm2
    · rw [hord]
      exact hphase (by simp)
